import Mathlib

/-!
hlog.c: leveled logging with a day-rotating file sink

A shallow embedding of `src/base/hlog.c`.  The file-scope statics of the C
file, the function statics of `shift_logfile`, the files on disk and a trace
of the library calls the code performs are gathered in one `State` record
that every function receives and returns.

What the C file takes from elsewhere is an input of the model:

* the macros of `hlog.h` (`LOG_BUFSIZE`, `MAX_LOG_FILESIZE`, the level table
  `FOREACH_LOG`, `CL_CLR`, the defaults) are the fields of `Consts`;
* libc `localtime` is a function `Int → Tm` (the time zone), taken to
  succeed on every timestamp;
* `time(NULL)`, `datetime_now()`, `ftell` and the success of each `fopen`
  are the fields of `Env`, one record per call;
* the text that `vsnprintf` expands from `fmt` and the arguments is the
  argument `msg`.

Conventions:

* `time_t` values, lengths and the `int` statics are unbounded integers; the
  one `int` operation that leaves the range of a 32-bit `int` at values the
  setters accept, the product of a day count and `SECONDS_PER_DAY` in the
  retention sweep, is reduced modulo 2^32 (`int_mul`); C division, which
  truncates toward zero, is `Int.tdiv`;
* a C string is the list of its characters, a stream is known by the path it
  was opened on, and a record written to a stream reaches the file at once;
* the process is the only one that touches the files, and calls are
  sequential.

The first part of the file holds the definitions (the embedding, then the
statements of the specification), the second part the theorems.
-/

namespace Hlog

/-- C strings: the characters before the terminating NUL. -/
abbrev CStr := List Char

/-- Modelled from the spec: `SECONDS_PER_DAY` is a macro of `htime.h`, which is
not part of the source at hand; the day bucket is "epoch seconds /
seconds-per-day", a day having 86400 seconds. -/
def SECONDS_PER_DAY : Int := 86400

/-- The product of two `int` values as the compiled code computes it: the
mathematical product reduced modulo 2^32 into the range of a 32-bit `int`.
(A signed product that leaves the range is undefined in C; the reduced value
is what the multiply instruction leaves.) -/
def int_mul (a b : Int) : Int := (a * b + 2147483648) % 4294967296 - 2147483648

/-! ## printf conversions -/

/-- Decimal digits of `n`, most significant first; `fuel` bounds the recursion. -/
def decimalAux : Nat → Nat → CStr
  | 0, _ => []
  | fuel + 1, n =>
    if n < 10 then [Nat.digitChar n]
    else decimalAux fuel (n / 10) ++ [Nat.digitChar (n % 10)]

/-- Decimal numeral of a natural number. -/
def decimal (n : Nat) : CStr := decimalAux (n + 1) n

/-- The printf conversion `%0wd`: the decimal numeral of `n`, zeros inserted
after the sign until the field has at least `w` characters. -/
def printf_0d (w : Nat) (n : Int) : CStr :=
  if n < 0 then
    '-' :: (List.replicate (w - 1 - (decimal n.natAbs).length) '0' ++ decimal n.natAbs)
  else
    List.replicate (w - (decimal n.toNat).length) '0' ++ decimal n.toNat

/-- The C string that `snprintf(buf, len, ...)` leaves in `buf` when the
complete expansion is `full`: at most `len - 1` characters are kept. -/
def snprintf_text (len : Nat) (full : CStr) : CStr := full.take (len - 1)

/-! ## Data -/

/-- The fields of `struct tm` that `ts_logfile` reads. -/
structure Tm where
  tm_year : Int
  tm_mon : Int
  tm_mday : Int
deriving DecidableEq

/-- The civil date-time breakdown `datetime_t` returned by `datetime_now()`. -/
structure datetime_t where
  year : Int
  month : Int
  day : Int
  hour : Int
  min : Int
  sec : Int
  ms : Int
deriving DecidableEq

/-- Mode string of `fopen`: "a" or "w". -/
inductive Mode where
  | a
  | w
deriving DecidableEq

/-- An open stream; it is identified by the path it was opened on. -/
structure FILE where
  path : CStr
  mode : Mode
deriving DecidableEq

/-- The values an `hlog_handler` can take: the three sinks of hlog.c, or a
handler supplied by the host (whose effect is outside the model). -/
inductive Logger where
  | stdout_logger
  | stderr_logger
  | file_logger
  | other (id : Nat)
deriving DecidableEq

/-- Library calls recorded in the trace, in the order the code performs them. -/
inductive Event where
  | hmutex_init
  | hmutex_lock
  | hmutex_unlock
  | snprintf (offset : Int) (size : Int)
  | s_logger (buf : CStr) (len : Int)
  | fclose (path : CStr)
  | remove (path : CStr)
  | fopen (path : CStr) (mode : Mode) (ok : Bool)
  | fprintf (path : CStr) (text : CStr)
  | fflush (path : CStr)
deriving DecidableEq

/-- The macros of hlog.h used by hlog.c; hlog.h is not part of the source at
hand, so their values are inputs. `levels` holds the rows `(id, str, clr)` of
`FOREACH_LOG`. -/
structure Consts where
  LOG_BUFSIZE : Nat
  MAX_LOG_FILESIZE : Int
  levels : List (Int × CStr × CStr)
  CL_CLR : CStr
  DEFAULT_LOGGER : Logger
  DEFAULT_LOG_FILE : CStr
  DEFAULT_LOG_LEVEL : Int
  DEFAULT_LOG_REMAIN_DAYS : Int

/-- What the surroundings answer during one call: the clocks, the stream
position reported by `ftell`, and whether `fopen` in mode "a" and in mode "w"
succeeds. -/
structure Env where
  datetime_now : datetime_t
  time : Int
  ftell : Int
  fopen_a : Bool
  fopen_w : Bool

/-- Files on disk: the content stored under each path, `none` when no file
has that path. -/
abbrev Disk := CStr → Option CStr

/-- Effect of `remove(p)`; removing a missing file changes nothing. -/
def Disk.remove (d : Disk) (p : CStr) : Disk :=
  fun q => if q = p then none else d q

/-- Effect of a successful `fopen(p, mode)`: "a" creates the file when it is
missing and keeps its content otherwise, "w" creates or empties it. -/
def Disk.fopen (d : Disk) (p : CStr) (m : Mode) : Disk :=
  fun q =>
    if q = p then
      match m with
      | Mode.a => some ((d p).getD [])
      | Mode.w => some []
    else d q

/-- Effect of writing `text` at the end of the file a stream is open on. -/
def Disk.write (d : Disk) (p : CStr) (text : CStr) : Disk :=
  fun q => if q = p then some ((d p).getD [] ++ text) else d q

/-- The statics of hlog.c, the statics of `shift_logfile`, and the world
around them (disk, standard streams, trace of library calls). -/
structure State where
  s_initialized : Bool
  s_logger : Logger
  s_logfile : CStr
  s_loglevel : Int
  s_logcolor : Bool
  s_fflush : Bool
  s_remain_days : Int
  s_logbuf : CStr
  s_logfp : Option FILE
  s_cur_logfile : CStr
  s_last_logfile_ts : Int
  disk : Disk
  stdout : CStr
  stderr : CStr
  trace : List Event

/-- The state of a process that has not called the logger yet. -/
def State.initial (K : Consts) (disk : Disk) : State :=
  { s_initialized := false
    s_logger := K.DEFAULT_LOGGER
    s_logfile := K.DEFAULT_LOG_FILE
    s_loglevel := K.DEFAULT_LOG_LEVEL
    s_logcolor := false
    s_fflush := true
    s_remain_days := K.DEFAULT_LOG_REMAIN_DAYS
    s_logbuf := []
    s_logfp := none
    s_cur_logfile := []
    s_last_logfile_ts := 0
    disk := disk
    stdout := []
    stderr := []
    trace := [] }

/-- Record a library call in the trace. -/
def State.emit (g : State) (e : Event) : State :=
  { g with trace := g.trace ++ [e] }

/-! ## Setters -/

/-- Source: `hlog_set_logger`. -/
def hlog_set_logger (g : State) (fn : Logger) : State := { g with s_logger := fn }

/-- Source: `hlog_set_level`. -/
def hlog_set_level (g : State) (level : Int) : State := { g with s_loglevel := level }

/-- Source: `hlog_set_remain_days`. -/
def hlog_set_remain_days (g : State) (days : Int) : State := { g with s_remain_days := days }

/-- Source: `hlog_enable_color`; the int is converted to bool. -/
def hlog_enable_color (g : State) (on_ : Int) : State := { g with s_logcolor := decide (on_ ≠ 0) }

/-- Source: `hlog_set_fflush`; the int is converted to bool. -/
def hlog_set_fflush (g : State) (on_ : Int) : State := { g with s_fflush := decide (on_ ≠ 0) }

/-! ## The file sink -/

/-- The complete expansion of the format "%s-%04d-%02d-%02d.log" in `ts_logfile`. -/
def ts_logfile_fmt (s_logfile : CStr) (tm : Tm) : CStr :=
  s_logfile ++ '-' :: printf_0d 4 (tm.tm_year + 1900) ++ '-' :: printf_0d 2 (tm.tm_mon + 1)
    ++ '-' :: printf_0d 2 tm.tm_mday ++ ".log".toList

/-- Source: `ts_logfile`; the result is the string left in `buf`. Every caller
passes `len = 256`. -/
def ts_logfile (localtime : Int → Tm) (s_logfile : CStr) (ts : Int) (len : Nat) : CStr :=
  snprintf_text len (ts_logfile_fmt s_logfile (localtime ts))

/-- Call `remove(p)`. -/
def c_remove (g : State) (p : CStr) : State :=
  { g with disk := g.disk.remove p, trace := g.trace ++ [Event.remove p] }

/-- Call `fclose` on the open stream, if any, and clear `s_logfp`. -/
def c_fclose (g : State) : State :=
  match g.s_logfp with
  | some fp => { g with s_logfp := none, trace := g.trace ++ [Event.fclose fp.path] }
  | none => g

/-- Call `s_logfp = fopen(p, mode)`; `ok` tells whether the open succeeds. -/
def c_fopen (g : State) (ok : Bool) (p : CStr) (m : Mode) : State :=
  if ok then
    { g with s_logfp := some ⟨p, m⟩, disk := g.disk.fopen p m,
             trace := g.trace ++ [Event.fopen p m true] }
  else
    { g with s_logfp := none, trace := g.trace ++ [Event.fopen p m false] }

/-- The values of `i` visited by `for (int i = hi; i >= lo; --i)`. -/
def for_down (hi lo : Int) : List Int :=
  (List.range (hi - lo + 1).toNat).map (fun k => hi - (k : Int))

/-- The value of `interval_days` computed on line 106. -/
def interval_days0 (env : Env) (g : State) : Int :=
  if g.s_last_logfile_ts = 0 then 0
  else env.time.tdiv SECONDS_PER_DAY - g.s_last_logfile_ts.tdiv SECONDS_PER_DAY

/-- Lines 116-131 of `shift_logfile`: the retention sweep. The products
`i * SECONDS_PER_DAY` and `s_remain_days * SECONDS_PER_DAY` of lines 120 and
128 are `int` products; the subtraction from `ts_now` is in `time_t`. -/
def sweep (localtime : Int → Tm) (env : Env) (interval_days : Int) (g : State) : State :=
  if interval_days ≥ g.s_remain_days then
    (for_down interval_days g.s_remain_days).foldl
      (fun s i => c_remove s
        (ts_logfile localtime s.s_logfile (env.time - int_mul i SECONDS_PER_DAY) 256)) g
  else
    c_remove g
      (ts_logfile localtime g.s_logfile (env.time - int_mul g.s_remain_days SECONDS_PER_DAY) 256)

/-- Lines 105-132 of `shift_logfile`: close the old file and sweep when no
file is open or the day bucket has advanced. -/
def shift_rotate (localtime : Int → Tm) (env : Env) (g : State) : State :=
  if g.s_logfp = none ∨ interval_days0 env g > 0 then
    match g.s_logfp with
    | some _ => sweep localtime env (interval_days0 env g) (c_fclose g)
    | none => sweep localtime env 30 g
  else g

/-- Lines 134-139 of `shift_logfile`: open the file of today in append mode. -/
def shift_open (localtime : Int → Tm) (env : Env) (g : State) : State :=
  if g.s_logfp = none then
    let name := ts_logfile localtime g.s_logfile env.time 256
    { c_fopen { g with s_cur_logfile := name } env.fopen_a name Mode.a with
      s_last_logfile_ts := env.time }
  else g

/-- Lines 141-146 of `shift_logfile`: reopen in mode "w" when the stream
position exceeds `MAX_LOG_FILESIZE`. -/
def shift_rewrite (K : Consts) (env : Env) (g : State) : State :=
  if g.s_logfp ≠ none ∧ env.ftell > K.MAX_LOG_FILESIZE then
    c_fopen (c_fclose g) env.fopen_w g.s_cur_logfile Mode.w
  else g

/-- Source: `shift_logfile`; the returned stream is `s_logfp` of the result. -/
def shift_logfile (K : Consts) (localtime : Int → Tm) (env : Env) (g : State) : State :=
  shift_rewrite K env (shift_open localtime env (shift_rotate localtime env g))

/-- Source: `file_logger`. -/
def file_logger (K : Consts) (localtime : Int → Tm) (env : Env) (g : State)
    (buf : CStr) (_len : Int) : State :=
  let g1 := shift_logfile K localtime env g
  match g1.s_logfp with
  | none => g1
  | some fp =>
    let g2 := { g1 with disk := g1.disk.write fp.path (buf ++ ['\n']),
                        trace := g1.trace ++ [Event.fprintf fp.path (buf ++ ['\n'])] }
    if g2.s_fflush then g2.emit (Event.fflush fp.path) else g2

/-- Source: `stdout_logger`. -/
def stdout_logger (g : State) (buf : CStr) (_len : Int) : State :=
  { g with stdout := g.stdout ++ buf ++ ['\n'] }

/-- Source: `stderr_logger`. -/
def stderr_logger (g : State) (buf : CStr) (_len : Int) : State :=
  { g with stderr := g.stderr ++ buf ++ ['\n'] }

/-! ## Formatting and dispatch -/

/-- The `switch (level)` over `FOREACH_LOG`: the pair `(plevel, pcolor)`,
both empty when no case matches. -/
def level_row (levels : List (Int × CStr × CStr)) (level : Int) : CStr × CStr :=
  match levels.find? (fun r => decide (r.1 = level)) with
  | some r => (r.2.1, r.2.2)
  | none => ([], [])

/-- The complete expansion of the header format of line 60. -/
def log_header (pcolor plevel : CStr) (now : datetime_t) : CStr :=
  pcolor ++ '[' :: printf_0d 4 now.year ++ '-' :: printf_0d 2 now.month ++ '-' :: printf_0d 2 now.day
    ++ ' ' :: printf_0d 2 now.hour ++ ':' :: printf_0d 2 now.min ++ ':' :: printf_0d 2 now.sec
    ++ '.' :: printf_0d 3 now.ms ++ "][".toList ++ plevel ++ "]: ".toList

/-- The call `snprintf(s_logbuf + len, LOG_BUFSIZE - len, ...)` whose complete
expansion is `s`: the trace records offset and size, and `s_logbuf` receives
the characters that fit. With size 0 nothing is stored. With a negative size
the write lies outside `s_logbuf` (undefined behaviour in C), and with an
offset past the terminating NUL it lies behind the end of the string; in both
cases the C string in `s_logbuf` stays as it is. The value `snprintf` returns
is `s.length` in every case. -/
def snprintf_at (K : Consts) (g : State) (len : Int) (s : CStr) : State :=
  let size : Int := (K.LOG_BUFSIZE : Int) - len
  let buf : CStr :=
    if 0 < size ∧ 0 ≤ len ∧ len ≤ g.s_logbuf.length then
      g.s_logbuf.take len.toNat ++ s.take (size.toNat - 1)
    else g.s_logbuf
  { g with s_logbuf := buf, trace := g.trace ++ [Event.snprintf len size] }

/-- The call `s_logger(buf, len)`. -/
def call_logger (K : Consts) (localtime : Int → Tm) (env : Env) (g : State)
    (buf : CStr) (len : Int) : State :=
  match g.s_logger with
  | Logger.stdout_logger => stdout_logger g buf len
  | Logger.stderr_logger => stderr_logger g buf len
  | Logger.file_logger => file_logger K localtime env g buf len
  | Logger.other _ => g

/-- Lines 53-56 of `hlog_printf`: lazy creation of the mutex. -/
def mutex_once (g : State) : State :=
  if g.s_initialized then g
  else { g with s_initialized := true, trace := g.trace ++ [Event.hmutex_init] }

/-- Lines 60-71 of `hlog_printf`: the three appends into `s_logbuf`; the
second component is the final value of `len`. -/
def hlog_render (K : Consts) (g : State) (pcolor plevel : CStr) (now : datetime_t)
    (msg : CStr) : State × Int :=
  let header := log_header pcolor plevel now
  let g2 := snprintf_at K g 0 header
  let len1 : Int := header.length
  let g3 := snprintf_at K g2 len1 msg
  let len2 : Int := len1 + msg.length
  if g.s_logcolor then (snprintf_at K g3 len2 K.CL_CLR, len2 + K.CL_CLR.length)
  else (g3, len2)

/-- Source: `hlog_printf`; `msg` is the expansion of `fmt` with its arguments. -/
def hlog_printf (K : Consts) (localtime : Int → Tm) (env : Env) (g : State)
    (level : Int) (msg : CStr) : State × Int :=
  if level < g.s_loglevel then (g, -10)
  else
    let now := env.datetime_now
    let plevel := (level_row K.levels level).1
    let pcolor := if g.s_logcolor then (level_row K.levels level).2 else []
    let g1 := (mutex_once g).emit Event.hmutex_lock
    let r := hlog_render K g1 pcolor plevel now msg
    let g5 := call_logger K localtime env (r.1.emit (Event.s_logger r.1.s_logbuf r.2))
      r.1.s_logbuf r.2
    (g5.emit Event.hmutex_unlock, r.2)

/-! ## A concrete time zone for examples -/

/-- Civil date of day number `z` (days since 1970-01-01) in the proleptic
Gregorian calendar, in the field conventions of `struct tm`. -/
def civil_from_days (z : Int) : Tm :=
  let z := z + 719468
  let era := z / 146097
  let doe := z - era * 146097
  let yoe := (doe - doe / 1460 + doe / 36524 - doe / 146096) / 365
  let doy := doe - (365 * yoe + yoe / 4 - yoe / 100)
  let mp := (5 * doy + 2) / 153
  let d := doy - (153 * mp + 2) / 5 + 1
  let m := if mp < 10 then mp + 3 else mp - 9
  let y := yoe + era * 400 + (if m ≤ 2 then 1 else 0)
  { tm_year := y - 1900, tm_mon := m - 1, tm_mday := d }

/-- A `localtime` for a zone whose offset from UTC is always `gmtoff` seconds. -/
def localtime_fixed (gmtoff : Int) (ts : Int) : Tm :=
  civil_from_days ((ts + gmtoff) / 86400)

/-- Sample values for the macros of hlog.h, used to evaluate examples: an 8k
line buffer, a 16M size ceiling, the levels DEBUG..FATAL with their ANSI
colors, the console as default sink. -/
def hlog_h_sample : Consts :=
  { LOG_BUFSIZE := 8192
    MAX_LOG_FILESIZE := 16777216
    levels := [(1, "DEBUG".toList, "\x1b[37m".toList), (2, "INFO ".toList, "\x1b[32m".toList),
               (3, "WARN ".toList, "\x1b[33m".toList), (4, "ERROR".toList, "\x1b[31m".toList),
               (5, "FATAL".toList, "\x1b[31;47m".toList)]
    CL_CLR := "\x1b[0m".toList
    DEFAULT_LOGGER := Logger.stdout_logger
    DEFAULT_LOG_FILE := "default".toList
    DEFAULT_LOG_LEVEL := 0
    DEFAULT_LOG_REMAIN_DAYS := 1 }

/-- Sample surroundings at epoch time `t`: the wall clock shows
2023-11-14 01:02:03.004, the stream position is `pos`, every open succeeds. -/
def env_sample (t pos : Int) : Env :=
  { datetime_now := ⟨2023, 11, 14, 1, 2, 3, 4⟩, time := t, ftell := pos,
    fopen_a := true, fopen_w := true }

/-! ## Statements of the specification -/

/-- Spec-side: the integer `n` in decimal, "zero-padded to `w` digits"; it
is written with the decimal conversion of the Lean library. -/
def zero_padded (w : Nat) (n : Int) : CStr :=
  if n < 0 then '-' :: List.leftpad (w - 1) '0' (Nat.toDigits 10 n.natAbs)
  else List.leftpad w '0' (Nat.toDigits 10 n.toNat)

/-- The local calendar date (year, month, day) of a timestamp. -/
def local_date (localtime : Int → Tm) (ts : Int) : Int × Int × Int :=
  ((localtime ts).tm_year + 1900, (localtime ts).tm_mon + 1, (localtime ts).tm_mday)

/-- Spec-side: the daily file name `{base}-{YYYY}-{MM}-{DD}.log` of a date. -/
def daily_name (base : CStr) (date : Int × Int × Int) : CStr :=
  base ++ "-".toList ++ zero_padded 4 date.1 ++ "-".toList ++ zero_padded 2 date.2.1
    ++ "-".toList ++ zero_padded 2 date.2.2 ++ ".log".toList

/-- Spec-side: the line `[YYYY-MM-DD HH:MM:SS.mmm][LEVEL]: message`. -/
def log_line (label : CStr) (now : datetime_t) (msg : CStr) : CStr :=
  "[".toList ++ zero_padded 4 now.year ++ "-".toList ++ zero_padded 2 now.month ++ "-".toList
    ++ zero_padded 2 now.day ++ " ".toList ++ zero_padded 2 now.hour ++ ":".toList
    ++ zero_padded 2 now.min ++ ":".toList ++ zero_padded 2 now.sec ++ ".".toList
    ++ zero_padded 3 now.ms ++ "][".toList ++ label ++ "]: ".toList ++ msg

/-- The calls `s_logger(buf, len)` recorded in a trace, in order. -/
def logger_calls (tr : List Event) : List (CStr × Int) :=
  tr.filterMap (fun e => match e with
    | Event.s_logger b l => some (b, l)
    | _ => none)

/-- The calls `snprintf(s_logbuf + offset, size, ...)` recorded in a trace. -/
def snprintf_calls (tr : List Event) : List (Int × Int) :=
  tr.filterMap (fun e => match e with
    | Event.snprintf o n => some (o, n)
    | _ => none)

/-- Events of the stdio file interface. -/
def is_file_event : Event → Bool
  | Event.fclose _ => true
  | Event.remove _ => true
  | Event.fopen _ _ _ => true
  | Event.fprintf _ _ => true
  | Event.fflush _ => true
  | _ => false

/-- The trace of `g2` extends the trace of `g` by stdio file events only. -/
def FileOnly (g g2 : State) : Prop :=
  ∃ evs : List Event, g2.trace = g.trace ++ evs ∧ ∀ e ∈ evs, is_file_event e = true

/-- A process with the sample macros that has not logged yet, on an empty
disk. -/
def g_sample : State := State.initial hlog_h_sample (fun _ => none)

/-- The file sink leaves the file-scope statics of hlog.c and the standard
streams as they are. -/
def SameConfig (g g2 : State) : Prop :=
  g2.s_initialized = g.s_initialized ∧ g2.s_logger = g.s_logger ∧ g2.s_logfile = g.s_logfile ∧
  g2.s_loglevel = g.s_loglevel ∧ g2.s_logcolor = g.s_logcolor ∧ g2.s_fflush = g.s_fflush ∧
  g2.s_remain_days = g.s_remain_days ∧ g2.s_logbuf = g.s_logbuf ∧
  g2.stdout = g.stdout ∧ g2.stderr = g.stderr

/-- The paths handed to `remove` by the retention sweep, in order. -/
def sweep_paths (localtime : Int → Tm) (env : Env) (interval_days : Int) (g : State) : List CStr :=
  if interval_days ≥ g.s_remain_days then
    (for_down interval_days g.s_remain_days).map
      (fun i => ts_logfile localtime g.s_logfile (env.time - int_mul i SECONDS_PER_DAY) 256)
  else
    [ts_logfile localtime g.s_logfile (env.time - int_mul g.s_remain_days SECONDS_PER_DAY) 256]

/-- Successive calls of `file_logger`, one per element of `calls` (the
surroundings of the call and the text handed over). -/
def run_file_logger (K : Consts) (localtime : Int → Tm) (g : State) : List (Env × CStr) → State
  | [] => g
  | c :: rest =>
    run_file_logger K localtime (file_logger K localtime c.1 g c.2 (c.2.length : Int)) rest

/-- The sample process with the base path "app" in `s_logfile`. -/
def g_app : State := { g_sample with s_logfile := "app".toList }

/-- The state in which `shift_logfile` reaches the size check of line 142:
after the rotation step and the open of the file of today. -/
def at_size_check (localtime : Int → Tm) (env : Env) (g : State) : State :=
  shift_open localtime env (shift_rotate localtime env g)

/-- Events that write a record: the `fprintf` of `file_logger`. -/
def is_write_event : Event → Bool
  | Event.fprintf _ _ => true
  | _ => false

/-- Library function `strrchr(s, c)`: the offset of the last occurrence of `c`
in `s`, `none` for the NULL result. -/
def strrchr : CStr → Char → Option Nat
  | [], _ => none
  | x :: xs, c =>
    match strrchr xs c with
    | some i => some (i + 1)
    | none => if x = c then some 0 else none

/-- Source: `hlog_set_file`; `none` is the NULL argument. `strncpy` copies at
most 256 characters into `s_logfile`. An argument of 256 or more characters
leaves the array without terminating NUL, and what `strrchr` then reads
behind the array is not defined by C; the model keeps the 256 copied
characters as the string. -/
def hlog_set_file (g : State) (logfile : Option CStr) : State × Int :=
  match logfile with
  | none => (g, -10)
  | some p =>
    if p.length = 0 then (g, -10)
    else
      let copied := p.take 256
      match strrchr copied '.' with
      | some i =>
        if copied.drop i = ".log".toList then ({ g with s_logfile := copied.take i }, 0)
        else ({ g with s_logfile := copied }, 0)
      | none => ({ g with s_logfile := copied }, 0)

/-- Source: `hlog_fflush`. -/
def hlog_fflush (K : Consts) (localtime : Int → Tm) (env : Env) (g : State) : State :=
  let g1 := g.emit Event.hmutex_lock
  let g2 := shift_logfile K localtime env g1
  let g3 := match g2.s_logfp with
    | some fp => g2.emit (Event.fflush fp.path)
    | none => g2
  g3.emit Event.hmutex_unlock

/-- One call of the public interface of hlog.c, with the surroundings it
meets. -/
inductive Api where
  | hlog_set_logger (fn : Logger)
  | hlog_set_level (level : Int)
  | hlog_set_remain_days (days : Int)
  | hlog_enable_color (on_ : Int)
  | hlog_set_file (logfile : Option CStr)
  | hlog_set_fflush (on_ : Int)
  | hlog_printf (env : Env) (level : Int) (msg : CStr)
  | stdout_logger (buf : CStr) (len : Int)
  | stderr_logger (buf : CStr) (len : Int)
  | file_logger (env : Env) (buf : CStr) (len : Int)
  | hlog_fflush (env : Env)

/-- The state after one call of the public interface. -/
def api_step (K : Consts) (localtime : Int → Tm) (g : State) : Api → State
  | Api.hlog_set_logger fn => hlog_set_logger g fn
  | Api.hlog_set_level level => hlog_set_level g level
  | Api.hlog_set_remain_days days => hlog_set_remain_days g days
  | Api.hlog_enable_color on_ => hlog_enable_color g on_
  | Api.hlog_set_file logfile => (hlog_set_file g logfile).1
  | Api.hlog_set_fflush on_ => hlog_set_fflush g on_
  | Api.hlog_printf env level msg => (hlog_printf K localtime env g level msg).1
  | Api.stdout_logger buf len => stdout_logger g buf len
  | Api.stderr_logger buf len => stderr_logger g buf len
  | Api.file_logger env buf len => file_logger K localtime env g buf len
  | Api.hlog_fflush env => hlog_fflush K localtime env g

/-- The state after a sequence of calls of the public interface. -/
def api_run (K : Consts) (localtime : Int → Tm) (g : State) (calls : List Api) : State :=
  calls.foldl (api_step K localtime) g

/-- The events a call has added to the trace: those of `g2` behind the trace
of the state `g` the call started from. -/
def new_events (g g2 : State) : List Event := g2.trace.drop g.trace.length

/-- The paths handed to `remove` in a list of events, in order. -/
def removed_paths (tr : List Event) : List CStr :=
  tr.filterMap (fun e => match e with
    | Event.remove p => some p
    | _ => none)

/-- The condition of line 107: `shift_logfile` closes, sweeps and reopens. -/
def rotates (env : Env) (g : State) : Prop :=
  g.s_logfp = none ∨ interval_days0 env g > 0

/-- The value of `interval_days` when the sweep runs: 30 when no file was
open, the difference of the day buckets otherwise. -/
def sweep_interval (env : Env) (g : State) : Int :=
  if g.s_logfp = none then 30 else interval_days0 env g

/-- A state with a file of an earlier run on disk: the sample process with
base path "app", and "app-2023-11-14.log" holding one line. -/
def g_restart : State :=
  { g_app with disk := fun q =>
      if q = "app-2023-11-14.log".toList then some "earlier\n".toList else none }

/-- The sample process with a base path of 255 characters, the longest that
`s_logfile` can hold with its terminating NUL. -/
def g_long : State := { g_sample with s_logfile := List.replicate 255 'a' }

/-- Spec-side: the difference of the day buckets, `now/86400 - last/86400`, in
C arithmetic. -/
def bucket_diff (env : Env) (g : State) : Int :=
  env.time.tdiv 86400 - g.s_last_logfile_ts.tdiv 86400

/-- Successive calls of `shift_logfile`, one per element of `envs`. -/
def run_shift_logfile (K : Consts) (localtime : Int → Tm) (g : State) (envs : List Env) : State :=
  envs.foldl (fun s e => shift_logfile K localtime e s) g

/-- The number of calls of `hmutex_init` in a trace. -/
def mutex_inits (tr : List Event) : Nat := tr.count Event.hmutex_init

/-- Whether a call reaches the lazy creation of the mutex in state `g`: a
call of `hlog_printf` whose level is not below `s_loglevel`. -/
def passes (g : State) : Api → Bool
  | Api.hlog_printf _ level _ => decide (g.s_loglevel ≤ level)
  | _ => false

/-- No call of the sequence passes the filter at the time it is made. -/
def none_pass (K : Consts) (localtime : Int → Tm) (g : State) : List Api → Bool
  | [] => true
  | c :: cs => !passes g c && none_pass K localtime (api_step K localtime g c) cs

/-- Every `hmutex_lock` of the trace comes after an `hmutex_init`; `inited`
tells whether an `hmutex_init` has been seen before the trace starts. -/
def locks_initialized : Bool → List Event → Bool
  | _, [] => true
  | _, Event.hmutex_init :: es => locks_initialized true es
  | inited, Event.hmutex_lock :: es => inited && locks_initialized inited es
  | inited, _ :: es => locks_initialized inited es

/-- The sample process with base path "app" and an unrelated file
"other.txt" on disk. -/
def g_other : State :=
  { g_app with disk := fun q => if q = "other.txt".toList then some "kept".toList else none }

/-! ## Time zones, digit strings and long runs -/

/-- A `localtime` for a zone whose offset from UTC at the instant `ts` is
`gmtoff ts` seconds; `localtime_fixed` is the case of a constant offset. -/
def localtime_zone (gmtoff : Int → Int) (ts : Int) : Tm :=
  civil_from_days ((ts + gmtoff ts) / 86400)

/-- The UTC offset of London in 2023: one hour (summer time) from
2023-03-26 01:00 UTC to 2023-10-29 01:00 UTC, zero before and after. -/
def london_2023 (ts : Int) : Int :=
  if 1679792400 ≤ ts ∧ ts < 1698541200 then 3600 else 0

/-- The number that a string of decimal digits denotes. -/
def digits_value (s : CStr) : Nat := s.foldl (fun v c => 10 * v + (c.toNat - 48)) 0

/-- A state with a file of an earlier run on disk: the sample process with
base path "app", and "app-2023-10-29.log" holding one line. -/
def g_restart_oct : State :=
  { g_app with disk := fun q =>
      if q = "app-2023-10-29.log".toList then some "earlier\n".toList else none }

/-! ## Lemmas on the printf conversions -/

theorem decimalAux_eq_toDigitsCore (fuel : Nat) :
    ∀ (n : Nat) (ds : List Char), n < fuel →
      Nat.toDigitsCore 10 fuel n ds = decimalAux fuel n ++ ds := by
  induction fuel with
  | zero => intro n ds h; omega
  | succ fuel ih =>
    intro n ds h
    unfold Nat.toDigitsCore decimalAux
    by_cases h10 : n < 10
    · have h0 : n / 10 = 0 := by omega
      have hm : n % 10 = n := by omega
      simp [h10, h0, hm]
    · have h0 : n / 10 ≠ 0 := by omega
      have hlt : n / 10 < fuel := by omega
      simp [h10, h0, ih (n / 10) _ hlt]

theorem decimal_eq_toDigits (n : Nat) : decimal n = Nat.toDigits 10 n := by
  unfold decimal Nat.toDigits
  rw [decimalAux_eq_toDigitsCore (n + 1) n [] (by omega)]
  simp

theorem decimalAux_length_le (fuel : Nat) :
    ∀ (w n : Nat), 1 ≤ w → n < 10 ^ w → (decimalAux fuel n).length ≤ w := by
  induction fuel with
  | zero => intro w n _ _; simp [decimalAux]
  | succ fuel ih =>
    intro w n hw hn
    unfold decimalAux
    by_cases h10 : n < 10
    · simp [h10]; omega
    · obtain ⟨v, rfl⟩ : ∃ v, w = v + 1 := ⟨w - 1, by omega⟩
      have hv : 1 ≤ v := by
        rcases Nat.eq_zero_or_pos v with h | h
        · subst h; simp at hn; omega
        · exact h
      have hdiv : n / 10 < 10 ^ v := by
        rw [Nat.div_lt_iff_lt_mul (by decide)]
        rw [pow_succ] at hn
        exact hn
      have := ih v (n / 10) hv hdiv
      simp [h10]
      omega

theorem printf_0d_eq_zero_padded (w : Nat) (n : Int) : printf_0d w n = zero_padded w n := by
  unfold printf_0d zero_padded List.leftpad
  simp [decimal_eq_toDigits]

theorem zero_padded_length (w : Nat) (n : Int) (hw : 1 ≤ w) (h0 : 0 ≤ n) (hn : n < 10 ^ w) :
    (zero_padded w n).length = w := by
  rw [← printf_0d_eq_zero_padded]
  unfold printf_0d
  have hlt : n.toNat < 10 ^ w := by
    have : ((n.toNat : Nat) : Int) < ((10 ^ w : Nat) : Int) := by
      rw [Int.toNat_of_nonneg h0]; push_cast; exact hn
    exact_mod_cast this
  have := decimalAux_length_le (n.toNat + 1) w n.toNat hw hlt
  have hneg : ¬ n < 0 := by omega
  simp only [hneg, if_false, List.length_append, List.length_replicate]
  unfold decimal
  omega

theorem ts_logfile_fmt_eq_daily_name (localtime : Int → Tm) (base : CStr) (ts : Int) :
    ts_logfile_fmt base (localtime ts) = daily_name base (local_date localtime ts) := by
  simp [ts_logfile_fmt, daily_name, local_date, printf_0d_eq_zero_padded]

theorem log_header_eq_log_line (pcolor plevel : CStr) (now : datetime_t) (msg : CStr) :
    log_header pcolor plevel now ++ msg = pcolor ++ log_line plevel now msg := by
  simp [log_header, log_line, printf_0d_eq_zero_padded]

/-! ## C5: the daily file name -/

/-- C5 (filename determinism, P2/I2). When the string
`{base}-{YYYY}-{MM}-{DD}.log` built from the local calendar date of `T` fits
the 256-byte buffer (at most 255 characters and the NUL), `ts_logfile`
produces exactly that string; and any timestamp with the same local calendar
date gives the same name, whatever the time of day. -/
theorem ts_logfile_deterministic (localtime : Int → Tm) (base : CStr) (T : Int)
    (hfit : (daily_name base (local_date localtime T)).length < 256) :
    ts_logfile localtime base T 256 = daily_name base (local_date localtime T) ∧
    ∀ T2 : Int, local_date localtime T2 = local_date localtime T →
      ts_logfile localtime base T2 256 = ts_logfile localtime base T 256 := by
  constructor
  · unfold ts_logfile snprintf_text
    rw [ts_logfile_fmt_eq_daily_name]
    exact List.take_of_length_le (by omega)
  · intro T2 h
    unfold ts_logfile
    rw [ts_logfile_fmt_eq_daily_name, ts_logfile_fmt_eq_daily_name, h]

/-- Witness for C5, base "app" in UTC: the afternoon and the evening of 2023-11-14 both
give "app-2023-11-14.log". -/
theorem ts_logfile_deterministic_witness :
    ts_logfile (localtime_fixed 0) "app".toList 1699970400 256 = "app-2023-11-14.log".toList ∧
    ts_logfile (localtime_fixed 0) "app".toList 1700000000 256
      = ts_logfile (localtime_fixed 0) "app".toList 1699970400 256 :=
  have h := ts_logfile_deterministic (localtime_fixed 0) "app".toList 1699970400 (by decide)
  ⟨h.1.trans (by decide), h.2 1700000000 (by decide)⟩

/-! ## Lemmas on the trace and on the frame of the file sink -/

theorem fileOnly_refl (g : State) : FileOnly g g := ⟨[], by simp, by simp⟩

theorem fileOnly_trans {a b c : State} (h1 : FileOnly a b) (h2 : FileOnly b c) : FileOnly a c := by
  obtain ⟨e1, ht1, hf1⟩ := h1
  obtain ⟨e2, ht2, hf2⟩ := h2
  refine ⟨e1 ++ e2, by rw [ht2, ht1, List.append_assoc], ?_⟩
  intro e he
  rcases List.mem_append.mp he with h | h
  · exact hf1 e h
  · exact hf2 e h

theorem sameConfig_refl (g : State) : SameConfig g g := by simp [SameConfig]

theorem sameConfig_trans {a b c : State} (h1 : SameConfig a b) (h2 : SameConfig b c) :
    SameConfig a c := by
  unfold SameConfig at *
  obtain ⟨a1, a2, a3, a4, a5, a6, a7, a8, a9, a10⟩ := h1
  obtain ⟨b1, b2, b3, b4, b5, b6, b7, b8, b9, b10⟩ := h2
  exact ⟨b1.trans a1, b2.trans a2, b3.trans a3, b4.trans a4, b5.trans a5, b6.trans a6,
    b7.trans a7, b8.trans a8, b9.trans a9, b10.trans a10⟩

theorem foldl_c_remove (paths : List CStr) :
    ∀ g : State, paths.foldl c_remove g =
      { g with disk := fun q => if q ∈ paths then none else g.disk q,
               trace := g.trace ++ paths.map Event.remove } := by
  induction paths with
  | nil => intro g; simp
  | cons p ps ih =>
    intro g
    rw [List.foldl_cons, ih]
    simp only [c_remove, Disk.remove, List.map_cons, List.append_assoc, List.singleton_append]
    congr 1
    funext q
    by_cases h1 : q ∈ ps
    · simp [h1]
    · by_cases h2 : q = p
      · simp [h2]
      · simp [h1, h2]

/-- The `int` product of a day count and `SECONDS_PER_DAY` is the exact
product for day counts up to 24855; 24856 * 86400 exceeds 2^31 - 1. -/
theorem int_mul_day (i : Int) (h1 : -24855 ≤ i) (h2 : i ≤ 24855) :
    int_mul i SECONDS_PER_DAY = i * SECONDS_PER_DAY := by
  unfold int_mul SECONDS_PER_DAY
  omega

theorem sweep_fold_aux (localtime : Int → Tm) (env : Env) (base : CStr) (is : List Int) :
    ∀ g : State, g.s_logfile = base →
      is.foldl (fun s i => c_remove s
        (ts_logfile localtime s.s_logfile (env.time - int_mul i SECONDS_PER_DAY) 256)) g
      = (is.map (fun i =>
          ts_logfile localtime base (env.time - int_mul i SECONDS_PER_DAY) 256)).foldl
          c_remove g := by
  induction is with
  | nil => intro g _; rfl
  | cons i is ih =>
    intro g hg
    simp only [List.foldl_cons, List.map_cons]
    rw [hg]
    exact ih _ (by simp [c_remove, hg])

/-- The retention sweep removes the files of `sweep_paths`, in order, and
does nothing else. -/
theorem sweep_eq (localtime : Int → Tm) (env : Env) (d : Int) (g : State) :
    sweep localtime env d g =
      { g with disk := fun q => if q ∈ sweep_paths localtime env d g then none else g.disk q,
               trace := g.trace ++ (sweep_paths localtime env d g).map Event.remove } := by
  unfold sweep sweep_paths
  by_cases h : d ≥ g.s_remain_days
  · simp only [h, if_true]
    rw [sweep_fold_aux localtime env g.s_logfile _ g rfl, foldl_c_remove]
  · simp only [h, if_false]
    rw [← foldl_c_remove]
    rfl

theorem shift_rotate_sameday (localtime : Int → Tm) (env : Env) (g : State) (fp : FILE)
    (h : g.s_logfp = some fp) (hd : interval_days0 env g ≤ 0) :
    shift_rotate localtime env g = g := by
  unfold shift_rotate
  have : ¬ interval_days0 env g > 0 := by omega
  simp [h, this]

theorem c_fclose_fileOnly (g : State) : FileOnly g (c_fclose g) := by
  unfold c_fclose
  cases h : g.s_logfp with
  | none => exact fileOnly_refl g
  | some fp => exact ⟨[Event.fclose fp.path], rfl, by simp [is_file_event]⟩

theorem c_fopen_fileOnly (g : State) (ok : Bool) (p : CStr) (m : Mode) :
    FileOnly g (c_fopen g ok p m) := by
  unfold c_fopen
  cases ok
  · exact ⟨[Event.fopen p m false], by simp, by simp [is_file_event]⟩
  · exact ⟨[Event.fopen p m true], by simp, by simp [is_file_event]⟩

theorem sweep_fileOnly (localtime : Int → Tm) (env : Env) (d : Int) (g : State) :
    FileOnly g (sweep localtime env d g) := by
  rw [sweep_eq]
  refine ⟨(sweep_paths localtime env d g).map Event.remove, rfl, ?_⟩
  intro e he
  obtain ⟨p, _, rfl⟩ := List.mem_map.mp he
  rfl

theorem shift_rotate_fileOnly (localtime : Int → Tm) (env : Env) (g : State) :
    FileOnly g (shift_rotate localtime env g) := by
  unfold shift_rotate
  split
  · split
    · exact fileOnly_trans (c_fclose_fileOnly g) (sweep_fileOnly _ _ _ _)
    · exact sweep_fileOnly _ _ _ _
  · exact fileOnly_refl g

theorem shift_open_fileOnly (localtime : Int → Tm) (env : Env) (g : State) :
    FileOnly g (shift_open localtime env g) := by
  unfold shift_open
  split
  · obtain ⟨evs, h1, h2⟩ := c_fopen_fileOnly
      { g with s_cur_logfile := ts_logfile localtime g.s_logfile env.time 256 } env.fopen_a
      (ts_logfile localtime g.s_logfile env.time 256) Mode.a
    exact ⟨evs, h1, h2⟩
  · exact fileOnly_refl g

theorem shift_rewrite_fileOnly (K : Consts) (env : Env) (g : State) :
    FileOnly g (shift_rewrite K env g) := by
  unfold shift_rewrite
  split
  · exact fileOnly_trans (c_fclose_fileOnly g) (c_fopen_fileOnly _ _ _ _)
  · exact fileOnly_refl g

theorem shift_logfile_fileOnly (K : Consts) (localtime : Int → Tm) (env : Env) (g : State) :
    FileOnly g (shift_logfile K localtime env g) :=
  fileOnly_trans (fileOnly_trans (shift_rotate_fileOnly localtime env g)
    (shift_open_fileOnly localtime env _)) (shift_rewrite_fileOnly K env _)

theorem file_logger_fileOnly (K : Consts) (localtime : Int → Tm) (env : Env) (g : State)
    (buf : CStr) (len : Int) : FileOnly g (file_logger K localtime env g buf len) := by
  have h := shift_logfile_fileOnly K localtime env g
  unfold file_logger
  cases hfp : (shift_logfile K localtime env g).s_logfp with
  | none => simpa [hfp] using h
  | some fp =>
    simp only [hfp]
    refine fileOnly_trans h ?_
    split
    · exact ⟨[Event.fprintf fp.path (buf ++ ['\n']), Event.fflush fp.path],
        by simp [State.emit], by simp [is_file_event]⟩
    · exact ⟨[Event.fprintf fp.path (buf ++ ['\n'])], by simp, by simp [is_file_event]⟩

theorem call_logger_fileOnly (K : Consts) (localtime : Int → Tm) (env : Env) (g : State)
    (buf : CStr) (len : Int) : FileOnly g (call_logger K localtime env g buf len) := by
  unfold call_logger
  split
  · exact ⟨[], by simp [stdout_logger], by simp⟩
  · exact ⟨[], by simp [stderr_logger], by simp⟩
  · exact file_logger_fileOnly K localtime env g buf len
  · exact fileOnly_refl g

theorem c_fclose_sameConfig (g : State) : SameConfig g (c_fclose g) := by
  unfold c_fclose
  cases h : g.s_logfp <;> simp [SameConfig]

theorem c_fopen_sameConfig (g : State) (ok : Bool) (p : CStr) (m : Mode) :
    SameConfig g (c_fopen g ok p m) := by
  unfold c_fopen
  cases ok <;> simp [SameConfig]

theorem sweep_sameConfig (localtime : Int → Tm) (env : Env) (d : Int) (g : State) :
    SameConfig g (sweep localtime env d g) := by
  rw [sweep_eq]
  simp [SameConfig]

theorem shift_rotate_sameConfig (localtime : Int → Tm) (env : Env) (g : State) :
    SameConfig g (shift_rotate localtime env g) := by
  unfold shift_rotate
  split
  · split
    · exact sameConfig_trans (c_fclose_sameConfig g) (sweep_sameConfig _ _ _ _)
    · exact sweep_sameConfig _ _ _ _
  · exact sameConfig_refl g

theorem shift_open_sameConfig (localtime : Int → Tm) (env : Env) (g : State) :
    SameConfig g (shift_open localtime env g) := by
  unfold shift_open
  split
  · have h := c_fopen_sameConfig
      { g with s_cur_logfile := ts_logfile localtime g.s_logfile env.time 256 } env.fopen_a
      (ts_logfile localtime g.s_logfile env.time 256) Mode.a
    simpa [SameConfig] using h
  · exact sameConfig_refl g

theorem shift_rewrite_sameConfig (K : Consts) (env : Env) (g : State) :
    SameConfig g (shift_rewrite K env g) := by
  unfold shift_rewrite
  split
  · exact sameConfig_trans (c_fclose_sameConfig g) (c_fopen_sameConfig _ _ _ _)
  · exact sameConfig_refl g

theorem shift_logfile_sameConfig (K : Consts) (localtime : Int → Tm) (env : Env) (g : State) :
    SameConfig g (shift_logfile K localtime env g) :=
  sameConfig_trans (sameConfig_trans (shift_rotate_sameConfig localtime env g)
    (shift_open_sameConfig localtime env _)) (shift_rewrite_sameConfig K env _)

theorem file_logger_sameConfig (K : Consts) (localtime : Int → Tm) (env : Env) (g : State)
    (buf : CStr) (len : Int) : SameConfig g (file_logger K localtime env g buf len) := by
  have h := shift_logfile_sameConfig K localtime env g
  unfold file_logger
  cases hfp : (shift_logfile K localtime env g).s_logfp with
  | none => simpa [hfp] using h
  | some fp =>
    simp only [hfp]
    refine sameConfig_trans h ?_
    split <;> simp [SameConfig, State.emit]

/-! ## Lemmas on the line buffer -/

theorem logger_calls_append (a b : List Event) :
    logger_calls (a ++ b) = logger_calls a ++ logger_calls b := by
  simp [logger_calls, List.filterMap_append]

theorem snprintf_calls_append (a b : List Event) :
    snprintf_calls (a ++ b) = snprintf_calls a ++ snprintf_calls b := by
  simp [snprintf_calls, List.filterMap_append]

theorem logger_calls_file_events (evs : List Event) (h : ∀ e ∈ evs, is_file_event e = true) :
    logger_calls evs = [] := by
  induction evs with
  | nil => rfl
  | cons e es ih =>
    have he := h e (List.mem_cons_self _ _)
    have ih2 := ih (fun x hx => h x (List.mem_cons_of_mem _ hx))
    cases e <;> simp_all [logger_calls, is_file_event]

theorem snprintf_calls_file_events (evs : List Event) (h : ∀ e ∈ evs, is_file_event e = true) :
    snprintf_calls evs = [] := by
  induction evs with
  | nil => rfl
  | cons e es ih =>
    have he := h e (List.mem_cons_self _ _)
    have ih2 := ih (fun x hx => h x (List.mem_cons_of_mem _ hx))
    cases e <;> simp_all [snprintf_calls, is_file_event]

theorem call_logger_s_logbuf (K : Consts) (localtime : Int → Tm) (env : Env) (g : State)
    (buf : CStr) (len : Int) : (call_logger K localtime env g buf len).s_logbuf = g.s_logbuf := by
  unfold call_logger
  split
  · rfl
  · rfl
  · exact (file_logger_sameConfig K localtime env g buf len).2.2.2.2.2.2.2.1
  · rfl

theorem snprintf_at_first (K : Consts) (g : State) (s : CStr) (hB : 0 < K.LOG_BUFSIZE) :
    (snprintf_at K g 0 s).s_logbuf = s.take (K.LOG_BUFSIZE - 1) := by
  unfold snprintf_at
  have h1 : K.LOG_BUFSIZE ≠ 0 := by omega
  simp [h1]

theorem snprintf_at_append_fit (K : Consts) (g : State) (s : CStr)
    (h : g.s_logbuf.length + s.length < K.LOG_BUFSIZE) :
    (snprintf_at K g (g.s_logbuf.length : Int) s).s_logbuf = g.s_logbuf ++ s := by
  unfold snprintf_at
  have h1 : (0 : Int) < (K.LOG_BUFSIZE : Int) - (g.s_logbuf.length : Int) := by omega
  have h2 : s.length ≤ ((K.LOG_BUFSIZE : Int) - (g.s_logbuf.length : Int)).toNat - 1 := by omega
  simp only [h1, true_and, Nat.cast_nonneg, le_refl, and_self, if_true, Int.toNat_ofNat,
    List.take_length, List.take_of_length_le h2]

theorem snprintf_at_length_lt (K : Consts) (g : State) (len : Int) (s : CStr)
    (h : g.s_logbuf.length < K.LOG_BUFSIZE) :
    (snprintf_at K g len s).s_logbuf.length < K.LOG_BUFSIZE := by
  unfold snprintf_at
  by_cases hc : 0 < (K.LOG_BUFSIZE : Int) - len ∧ 0 ≤ len ∧ len ≤ (g.s_logbuf.length : Int)
  · simp only [hc, and_self, if_true, List.length_append, List.length_take]
    omega
  · simp only [hc, if_false]
    exact h

theorem hlog_render_len (K : Consts) (g : State) (pcolor plevel : CStr) (now : datetime_t)
    (msg : CStr) :
    (hlog_render K g pcolor plevel now msg).2 =
      ((log_header pcolor plevel now).length : Int) + msg.length
        + (if g.s_logcolor then (K.CL_CLR.length : Int) else 0) := by
  unfold hlog_render
  cases g.s_logcolor <;> simp

theorem hlog_render_length_lt (K : Consts) (g : State) (pcolor plevel : CStr) (now : datetime_t)
    (msg : CStr) (hB : 0 < K.LOG_BUFSIZE) :
    (hlog_render K g pcolor plevel now msg).1.s_logbuf.length < K.LOG_BUFSIZE := by
  have h1 : (snprintf_at K g 0 (log_header pcolor plevel now)).s_logbuf.length
      < K.LOG_BUFSIZE := by
    rw [snprintf_at_first K g _ hB, List.length_take]
    omega
  have h2 := snprintf_at_length_lt K _ ((log_header pcolor plevel now).length : Int) msg h1
  unfold hlog_render
  cases g.s_logcolor
  · simpa using h2
  · simpa using snprintf_at_length_lt K _ _ K.CL_CLR h2

theorem hlog_render_fit (K : Consts) (g : State) (pcolor plevel : CStr) (now : datetime_t)
    (msg : CStr)
    (hfit : (log_header pcolor plevel now).length + msg.length
      + (if g.s_logcolor then K.CL_CLR.length else 0) < K.LOG_BUFSIZE) :
    (hlog_render K g pcolor plevel now msg).1.s_logbuf =
      log_header pcolor plevel now ++ msg ++ (if g.s_logcolor then K.CL_CLR else []) := by
  have hB : 0 < K.LOG_BUFSIZE := by omega
  have e1 : (snprintf_at K g 0 (log_header pcolor plevel now)).s_logbuf
      = log_header pcolor plevel now := by
    rw [snprintf_at_first K g _ hB]
    exact List.take_of_length_le (by omega)
  have e2 : (snprintf_at K (snprintf_at K g 0 (log_header pcolor plevel now))
      ((log_header pcolor plevel now).length : Int) msg).s_logbuf
      = log_header pcolor plevel now ++ msg := by
    have := snprintf_at_append_fit K (snprintf_at K g 0 (log_header pcolor plevel now)) msg
      (by rw [e1]; omega)
    rw [e1] at this
    exact this
  unfold hlog_render
  cases hc : g.s_logcolor
  · simp [e2]
  · simp only [hc, if_true] at hfit ⊢
    have := snprintf_at_append_fit K (snprintf_at K (snprintf_at K g 0
      (log_header pcolor plevel now)) ((log_header pcolor plevel now).length : Int) msg) K.CL_CLR
      (by rw [e2, List.length_append]; omega)
    rw [e2] at this
    simpa using this

theorem hlog_render_trace (K : Consts) (g : State) (pcolor plevel : CStr) (now : datetime_t)
    (msg : CStr) :
    (hlog_render K g pcolor plevel now msg).1.trace =
      g.trace ++ [Event.snprintf 0 K.LOG_BUFSIZE,
        Event.snprintf (log_header pcolor plevel now).length
          (K.LOG_BUFSIZE - ((log_header pcolor plevel now).length : Int))]
      ++ (if g.s_logcolor then
            [Event.snprintf (((log_header pcolor plevel now).length : Int) + msg.length)
              (K.LOG_BUFSIZE - (((log_header pcolor plevel now).length : Int) + msg.length))]
          else []) := by
  unfold hlog_render
  cases g.s_logcolor <;> simp [snprintf_at]

/-- The run of `hlog_printf` for a level that passes the filter: the value
returned, the buffer, and the shape of the trace. -/
theorem hlog_printf_pass (K : Consts) (localtime : Int → Tm) (env : Env) (g : State)
    (level : Int) (msg : CStr) (h : g.s_loglevel ≤ level) :
    ∃ (r : State × Int) (fevs : List Event),
      r = hlog_render K ((mutex_once g).emit Event.hmutex_lock)
            (if g.s_logcolor then (level_row K.levels level).2 else [])
            (level_row K.levels level).1 env.datetime_now msg ∧
      (hlog_printf K localtime env g level msg).2 = r.2 ∧
      (hlog_printf K localtime env g level msg).1.s_logbuf = r.1.s_logbuf ∧
      (∀ e ∈ fevs, is_file_event e = true) ∧
      (hlog_printf K localtime env g level msg).1.trace =
        r.1.trace ++ [Event.s_logger r.1.s_logbuf r.2] ++ fevs ++ [Event.hmutex_unlock] := by
  have hn : ¬ level < g.s_loglevel := by omega
  obtain ⟨fevs, ht, hf⟩ := call_logger_fileOnly K localtime env
    ((hlog_render K ((mutex_once g).emit Event.hmutex_lock)
      (if g.s_logcolor then (level_row K.levels level).2 else [])
      (level_row K.levels level).1 env.datetime_now msg).1.emit
      (Event.s_logger (hlog_render K ((mutex_once g).emit Event.hmutex_lock)
      (if g.s_logcolor then (level_row K.levels level).2 else [])
      (level_row K.levels level).1 env.datetime_now msg).1.s_logbuf
        (hlog_render K ((mutex_once g).emit Event.hmutex_lock)
      (if g.s_logcolor then (level_row K.levels level).2 else [])
      (level_row K.levels level).1 env.datetime_now msg).2))
    (hlog_render K ((mutex_once g).emit Event.hmutex_lock)
      (if g.s_logcolor then (level_row K.levels level).2 else [])
      (level_row K.levels level).1 env.datetime_now msg).1.s_logbuf
    (hlog_render K ((mutex_once g).emit Event.hmutex_lock)
      (if g.s_logcolor then (level_row K.levels level).2 else [])
      (level_row K.levels level).1 env.datetime_now msg).2
  refine ⟨_, fevs, rfl, ?_, ?_, hf, ?_⟩
  · simp [hlog_printf, hn]
  · simp only [hlog_printf, hn, if_false, State.emit]
    rw [call_logger_s_logbuf]
  · simp only [hlog_printf, hn, if_false]
    simp only [State.emit] at ht ⊢
    rw [ht]

theorem mutex_once_s_logcolor (g : State) :
    ((mutex_once g).emit Event.hmutex_lock).s_logcolor = g.s_logcolor := by
  unfold mutex_once State.emit
  split <;> rfl

theorem level_row_of_mem (levels : List (Int × CStr × CStr)) (level : Int) (label color : CStr)
    (hnodup : (levels.map Prod.fst).Nodup) (hmem : (level, label, color) ∈ levels) :
    level_row levels level = (label, color) := by
  induction levels with
  | nil => simp at hmem
  | cons r rs ih =>
    simp only [List.map_cons, List.nodup_cons] at hnodup
    rcases List.mem_cons.mp hmem with h | h
    · subst h
      simp [level_row]
    · have hne : r.1 ≠ level := by
        intro he
        apply hnodup.1
        rw [he]
        exact List.mem_map.mpr ⟨_, h, rfl⟩
      have := ih hnodup.2 h
      unfold level_row at this ⊢
      simp only [List.find?_cons, hne, decide_False]
      exact this

theorem mutex_once_trace (g : State) :
    ((mutex_once g).emit Event.hmutex_lock).trace =
      g.trace ++ (if g.s_initialized then [] else [Event.hmutex_init]) ++ [Event.hmutex_lock] := by
  unfold mutex_once State.emit
  cases g.s_initialized <;> simp

theorem hlog_render_logger_calls (K : Consts) (g : State) (pcolor plevel : CStr)
    (now : datetime_t) (msg : CStr) :
    logger_calls (hlog_render K ((mutex_once g).emit Event.hmutex_lock) pcolor plevel now
      msg).1.trace = logger_calls g.trace := by
  rw [hlog_render_trace, mutex_once_trace]
  cases g.s_initialized <;>
    cases ((mutex_once g).emit Event.hmutex_lock).s_logcolor <;>
      simp [logger_calls_append, logger_calls]

theorem hlog_render_snprintf_calls (K : Consts) (g : State) (pcolor plevel : CStr)
    (now : datetime_t) (msg : CStr) :
    snprintf_calls (hlog_render K ((mutex_once g).emit Event.hmutex_lock) pcolor plevel now
      msg).1.trace = snprintf_calls g.trace ++
        [(0, (K.LOG_BUFSIZE : Int)),
         (((log_header pcolor plevel now).length : Int),
           (K.LOG_BUFSIZE : Int) - ((log_header pcolor plevel now).length : Int))] ++
        (if g.s_logcolor then
          [(((log_header pcolor plevel now).length : Int) + msg.length,
            (K.LOG_BUFSIZE : Int) - (((log_header pcolor plevel now).length : Int) + msg.length))]
         else []) := by
  rw [hlog_render_trace, mutex_once_trace, mutex_once_s_logcolor]
  cases g.s_initialized <;> cases g.s_logcolor <;>
    simp [snprintf_calls_append, snprintf_calls]

theorem hlog_printf_logger_calls (K : Consts) (localtime : Int → Tm) (env : Env) (g : State)
    (level : Int) (msg : CStr) (h : g.s_loglevel ≤ level) :
    logger_calls (hlog_printf K localtime env g level msg).1.trace =
      logger_calls g.trace ++ [((hlog_printf K localtime env g level msg).1.s_logbuf,
        (hlog_printf K localtime env g level msg).2)] := by
  obtain ⟨r, fevs, hr, h2, hbuf, hf, ht⟩ := hlog_printf_pass K localtime env g level msg h
  rw [ht, h2, hbuf, logger_calls_append, logger_calls_append, logger_calls_append,
    logger_calls_file_events fevs hf, hr, hlog_render_logger_calls]
  simp [logger_calls]

theorem hlog_printf_snprintf_calls (K : Consts) (localtime : Int → Tm) (env : Env) (g : State)
    (level : Int) (msg : CStr) (h : g.s_loglevel ≤ level) :
    snprintf_calls (hlog_printf K localtime env g level msg).1.trace =
      snprintf_calls (hlog_render K ((mutex_once g).emit Event.hmutex_lock)
        (if g.s_logcolor then (level_row K.levels level).2 else [])
        (level_row K.levels level).1 env.datetime_now msg).1.trace := by
  obtain ⟨r, fevs, hr, h2, hbuf, hf, ht⟩ := hlog_printf_pass K localtime env g level msg h
  rw [ht, snprintf_calls_append, snprintf_calls_append, snprintf_calls_append,
    snprintf_calls_file_events fevs hf, hr]
  simp [snprintf_calls]

theorem snprintf_at_append_trunc (K : Consts) (g : State) (s : CStr)
    (h : g.s_logbuf.length < K.LOG_BUFSIZE) :
    (snprintf_at K g (g.s_logbuf.length : Int) s).s_logbuf
      = (g.s_logbuf ++ s).take (K.LOG_BUFSIZE - 1) := by
  unfold snprintf_at
  have h1 : (0 : Int) < (K.LOG_BUFSIZE : Int) - (g.s_logbuf.length : Int) := by omega
  have h3 : ((K.LOG_BUFSIZE : Int) - (g.s_logbuf.length : Int)).toNat - 1
      = K.LOG_BUFSIZE - 1 - g.s_logbuf.length := by omega
  simp only [h1, true_and, Nat.cast_nonneg, le_refl, and_self, if_true, Int.toNat_ofNat,
    List.take_length, h3]
  rw [List.take_append_eq_append_take,
    @List.take_of_length_le _ (K.LOG_BUFSIZE - 1) g.s_logbuf (by omega)]

theorem snprintf_at_full (K : Consts) (g : State) (len : Int) (s : CStr)
    (h : (K.LOG_BUFSIZE : Int) ≤ len) : (snprintf_at K g len s).s_logbuf = g.s_logbuf := by
  unfold snprintf_at
  have h1 : ¬ ((0 : Int) < (K.LOG_BUFSIZE : Int) - len) := by omega
  simp only [h1, false_and, if_false]

theorem hlog_render_overlong (K : Consts) (g : State) (pcolor plevel : CStr) (now : datetime_t)
    (msg : CStr) (hB : (log_header pcolor plevel now).length < K.LOG_BUFSIZE)
    (hlong : K.LOG_BUFSIZE ≤ (log_header pcolor plevel now).length + msg.length) :
    (hlog_render K g pcolor plevel now msg).1.s_logbuf =
      (log_header pcolor plevel now ++ msg).take (K.LOG_BUFSIZE - 1) := by
  have e1 : (snprintf_at K g 0 (log_header pcolor plevel now)).s_logbuf
      = log_header pcolor plevel now := by
    rw [snprintf_at_first K g _ (by omega)]
    exact List.take_of_length_le (by omega)
  have e2 : (snprintf_at K (snprintf_at K g 0 (log_header pcolor plevel now))
      ((log_header pcolor plevel now).length : Int) msg).s_logbuf
      = (log_header pcolor plevel now ++ msg).take (K.LOG_BUFSIZE - 1) := by
    have := snprintf_at_append_trunc K (snprintf_at K g 0 (log_header pcolor plevel now)) msg
      (by rw [e1]; exact hB)
    rw [e1] at this
    exact this
  unfold hlog_render
  cases hc : g.s_logcolor
  · simpa using e2
  · simp only [if_true]
    rw [snprintf_at_full K _ _ _ (by omega)]
    exact e2

/-! ## C6: the format of a line -/

/-- C6 (line format). For a level of the level table (whose case labels are
distinct, as C requires), a date-time breakdown with year in 0..9999,
month, day, hour, minute, second in 0..99 and millisecond in 0..999, and a
message that fits the buffer together with the header (and the color codes
when color is on), the text `hlog_printf` leaves in the buffer and hands to
the sink is `[YYYY-MM-DD HH:MM:SS.mmm][LEVEL]: message` with color off, and
that text between the color code of the level and `CL_CLR` with color on;
the numeric fields have 4/2/2/2/2/2/3 digits; the length handed over is the
length of that text. -/
theorem hlog_printf_line_format (K : Consts) (localtime : Int → Tm) (env : Env) (g : State)
    (level : Int) (label color msg : CStr)
    (hnodup : (K.levels.map Prod.fst).Nodup)
    (hrow : (level, label, color) ∈ K.levels)
    (hpass : g.s_loglevel ≤ level)
    (hyear : 0 ≤ env.datetime_now.year ∧ env.datetime_now.year ≤ 9999)
    (hmonth : 0 ≤ env.datetime_now.month ∧ env.datetime_now.month ≤ 99)
    (hday : 0 ≤ env.datetime_now.day ∧ env.datetime_now.day ≤ 99)
    (hhour : 0 ≤ env.datetime_now.hour ∧ env.datetime_now.hour ≤ 99)
    (hmin : 0 ≤ env.datetime_now.min ∧ env.datetime_now.min ≤ 99)
    (hsec : 0 ≤ env.datetime_now.sec ∧ env.datetime_now.sec ≤ 99)
    (hms : 0 ≤ env.datetime_now.ms ∧ env.datetime_now.ms ≤ 999)
    (hfit : (if g.s_logcolor then color.length + K.CL_CLR.length else 0)
      + (log_line label env.datetime_now msg).length < K.LOG_BUFSIZE) :
    (hlog_printf K localtime env g level msg).1.s_logbuf =
      (if g.s_logcolor then color ++ log_line label env.datetime_now msg ++ K.CL_CLR
       else log_line label env.datetime_now msg) ∧
    logger_calls (hlog_printf K localtime env g level msg).1.trace =
      logger_calls g.trace ++
        [(if g.s_logcolor then color ++ log_line label env.datetime_now msg ++ K.CL_CLR
          else log_line label env.datetime_now msg,
          (((if g.s_logcolor then color ++ log_line label env.datetime_now msg ++ K.CL_CLR
          else log_line label env.datetime_now msg).length : Nat) : Int))] ∧
    (zero_padded 4 env.datetime_now.year).length = 4 ∧
    (zero_padded 2 env.datetime_now.month).length = 2 ∧
    (zero_padded 2 env.datetime_now.day).length = 2 ∧
    (zero_padded 2 env.datetime_now.hour).length = 2 ∧
    (zero_padded 2 env.datetime_now.min).length = 2 ∧
    (zero_padded 2 env.datetime_now.sec).length = 2 ∧
    (zero_padded 3 env.datetime_now.ms).length = 3 := by
  have hlr := level_row_of_mem K.levels level label color hnodup hrow
  obtain ⟨r, fevs, hr, h2, hbuf, hf, ht⟩ := hlog_printf_pass K localtime env g level msg hpass
  have hcalls := hlog_printf_logger_calls K localtime env g level msg hpass
  have hlen := hlog_render_len K ((mutex_once g).emit Event.hmutex_lock)
    (if g.s_logcolor then (level_row K.levels level).2 else [])
    (level_row K.levels level).1 env.datetime_now msg
  rw [← hr, mutex_once_s_logcolor] at hlen
  have hL := log_header_eq_log_line (if g.s_logcolor then color else []) label
    env.datetime_now msg
  have hLlen := congrArg List.length hL
  simp only [List.length_append] at hLlen
  have htext : (hlog_printf K localtime env g level msg).1.s_logbuf =
      (if g.s_logcolor then color ++ log_line label env.datetime_now msg ++ K.CL_CLR
       else log_line label env.datetime_now msg) := by
    rw [hbuf, hr, hlog_render_fit]
    · rw [hlr, mutex_once_s_logcolor, hL]
      cases g.s_logcolor <;> simp
    · rw [hlr, mutex_once_s_logcolor]
      cases hc : g.s_logcolor <;> simp [hc] at hfit hLlen ⊢ <;> omega
  have hret : (hlog_printf K localtime env g level msg).2 =
      (((if g.s_logcolor then color ++ log_line label env.datetime_now msg ++ K.CL_CLR
          else log_line label env.datetime_now msg).length : Nat) : Int) := by
    rw [h2, hlen, hlr]
    cases hc : g.s_logcolor <;> simp [hc] at hLlen ⊢ <;> omega
  refine ⟨htext, ?_, ?_, ?_, ?_, ?_, ?_, ?_, ?_⟩
  · rw [hcalls, htext, hret]
  · exact zero_padded_length 4 _ (by decide) hyear.1 (by have := hyear.2; norm_num; omega)
  · exact zero_padded_length 2 _ (by decide) hmonth.1 (by have := hmonth.2; norm_num; omega)
  · exact zero_padded_length 2 _ (by decide) hday.1 (by have := hday.2; norm_num; omega)
  · exact zero_padded_length 2 _ (by decide) hhour.1 (by have := hhour.2; norm_num; omega)
  · exact zero_padded_length 2 _ (by decide) hmin.1 (by have := hmin.2; norm_num; omega)
  · exact zero_padded_length 2 _ (by decide) hsec.1 (by have := hsec.2; norm_num; omega)
  · exact zero_padded_length 3 _ (by decide) hms.1 (by have := hms.2; norm_num; omega)

/-- Witness for C6, at level INFO with color on and the message "hello". -/
theorem hlog_printf_line_format_witness :
    (hlog_printf hlog_h_sample (localtime_fixed 0) (env_sample 1699923723 0)
      (hlog_enable_color g_sample 1) 2 "hello".toList).1.s_logbuf
      = "\x1b[32m[2023-11-14 01:02:03.004][INFO ]: hello\x1b[0m".toList :=
  (hlog_printf_line_format hlog_h_sample (localtime_fixed 0) (env_sample 1699923723 0)
    (hlog_enable_color g_sample 1) 2 "INFO ".toList "\x1b[32m".toList "hello".toList
    (by decide) (by decide) (by decide) (by decide) (by decide) (by decide) (by decide)
    (by decide) (by decide) (by decide) (by decide)).1.trans (by decide)

/-! ## C7: the level filter -/

/-- C7 (filtering, P1). A call with `level < s_loglevel` returns -10 and
leaves the whole state as it was: buffer, `s_initialized`, trace (no mutex
call, no sink call), disk and streams. A call with `level >= s_loglevel`
invokes the sink exactly once, with the buffer and the value it returns, and
that value is non-negative, hence not the -10 of the filter branch. -/
theorem hlog_printf_filter (K : Consts) (localtime : Int → Tm) (env : Env) (g : State)
    (level : Int) (msg : CStr) :
    (level < g.s_loglevel → hlog_printf K localtime env g level msg = (g, -10)) ∧
    (g.s_loglevel ≤ level →
      logger_calls (hlog_printf K localtime env g level msg).1.trace =
        logger_calls g.trace ++ [((hlog_printf K localtime env g level msg).1.s_logbuf,
          (hlog_printf K localtime env g level msg).2)] ∧
      0 ≤ (hlog_printf K localtime env g level msg).2 ∧
      (hlog_printf K localtime env g level msg).2 ≠ -10) := by
  constructor
  · intro h
    simp [hlog_printf, h]
  · intro h
    obtain ⟨r, fevs, hr, h2, hbuf, hf, ht⟩ := hlog_printf_pass K localtime env g level msg h
    have hlen := hlog_render_len K ((mutex_once g).emit Event.hmutex_lock)
      (if g.s_logcolor then (level_row K.levels level).2 else [])
      (level_row K.levels level).1 env.datetime_now msg
    rw [← hr] at hlen
    have hnn : 0 ≤ (hlog_printf K localtime env g level msg).2 := by
      rw [h2, hlen]
      split <;> omega
    exact ⟨hlog_printf_logger_calls K localtime env g level msg h, hnn, by omega⟩

/-- Witness for C7, with the threshold at WARN (3): an INFO call is dropped without any
effect, an ERROR call reaches the sink once. -/
theorem hlog_printf_filter_witness :
    hlog_printf hlog_h_sample (localtime_fixed 0) (env_sample 1699923723 0)
        (hlog_set_level g_sample 3) 2 "hello".toList = (hlog_set_level g_sample 3, -10) ∧
    (logger_calls (hlog_printf hlog_h_sample (localtime_fixed 0) (env_sample 1699923723 0)
        (hlog_set_level g_sample 3) 4 "hello".toList).1.trace).length = 1 := by
  have h := hlog_printf_filter hlog_h_sample (localtime_fixed 0) (env_sample 1699923723 0)
    (hlog_set_level g_sample 3)
  refine ⟨(h 2 "hello".toList).1 (by decide), ?_⟩
  rw [((h 4 "hello".toList).2 (by decide)).1]
  rfl

/-! ## C8 and C9: overlong messages -/

/-- C8, evaluated at a failing input: with the sample macros (8192-byte
buffer), color off and a message of 8192 characters at level INFO,
`hlog_printf` returns 8226 and hands 8226 to the sink as length, while the
buffer holds 8191 characters. -/
theorem hlog_printf_return_exceeds_buffer :
    (hlog_printf hlog_h_sample (localtime_fixed 0) (env_sample 1699923723 0) g_sample 2
      (List.replicate 8192 'x')).2 = 8226 ∧
    (hlog_printf hlog_h_sample (localtime_fixed 0) (env_sample 1699923723 0) g_sample 2
      (List.replicate 8192 'x')).1.s_logbuf.length = 8191 ∧
    logger_calls (hlog_printf hlog_h_sample (localtime_fixed 0) (env_sample 1699923723 0)
      g_sample 2 (List.replicate 8192 'x')).1.trace =
      [((hlog_printf hlog_h_sample (localtime_fixed 0) (env_sample 1699923723 0) g_sample 2
        (List.replicate 8192 'x')).1.s_logbuf, 8226)] := by
  have hpass : g_sample.s_loglevel ≤ 2 := by decide
  obtain ⟨r, fevs, hr, h2, hbuf, hf, ht⟩ := hlog_printf_pass hlog_h_sample (localtime_fixed 0)
    (env_sample 1699923723 0) g_sample 2 (List.replicate 8192 'x') hpass
  have hcalls := hlog_printf_logger_calls hlog_h_sample (localtime_fixed 0)
    (env_sample 1699923723 0) g_sample 2 (List.replicate 8192 'x') hpass
  have hhead : (log_header (if g_sample.s_logcolor then (level_row hlog_h_sample.levels 2).2
      else []) (level_row hlog_h_sample.levels 2).1 (env_sample 1699923723 0).datetime_now).length
      = 34 := by decide
  have hret : (hlog_printf hlog_h_sample (localtime_fixed 0) (env_sample 1699923723 0)
      g_sample 2 (List.replicate 8192 'x')).2 = 8226 := by
    rw [h2, hr, hlog_render_len, hhead, mutex_once_s_logcolor, List.length_replicate]
    rfl
  have hlen : (hlog_printf hlog_h_sample (localtime_fixed 0) (env_sample 1699923723 0)
      g_sample 2 (List.replicate 8192 'x')).1.s_logbuf.length = 8191 := by
    rw [hbuf, hr, hlog_render_overlong]
    · rw [List.length_take, List.length_append, hhead, List.length_replicate]
      rfl
    · rw [hhead]; decide
    · rw [hhead, List.length_replicate]; decide
  refine ⟨hret, hlen, ?_⟩
  rw [hcalls, hret]
  rfl

/-- C9, evaluated at a failing input: with the sample macros, color on and a
message of 8192 characters at level INFO, the three appends are made at
offsets 0, 39 and 8231 with sizes 8192, 8153 and -39: the third one starts
behind the end of the 8192-byte buffer, with a negative size. -/
theorem hlog_printf_append_outside_buffer :
    snprintf_calls (hlog_printf hlog_h_sample (localtime_fixed 0) (env_sample 1699923723 0)
      (hlog_enable_color g_sample 1) 2 (List.replicate 8192 'x')).1.trace =
      [(0, 8192), (39, 8153), (8231, -39)] := by
  have hpass : (hlog_enable_color g_sample 1).s_loglevel ≤ 2 := by decide
  have hhead : (log_header (if (hlog_enable_color g_sample 1).s_logcolor then
      (level_row hlog_h_sample.levels 2).2 else []) (level_row hlog_h_sample.levels 2).1
      (env_sample 1699923723 0).datetime_now).length = 39 := by decide
  rw [hlog_printf_snprintf_calls _ _ _ _ _ _ hpass, hlog_render_snprintf_calls, hhead,
    List.length_replicate]
  rfl

/-! ## Lemmas on `shift_logfile` -/

theorem sweep_s_logfp (localtime : Int → Tm) (env : Env) (d : Int) (g : State) :
    (sweep localtime env d g).s_logfp = g.s_logfp := by
  rw [sweep_eq]

theorem sweep_disk (localtime : Int → Tm) (env : Env) (d : Int) (g : State) (q : CStr) :
    (sweep localtime env d g).disk q =
      if q ∈ sweep_paths localtime env d g then none else g.disk q := by
  rw [sweep_eq]

theorem shift_rotate_s_logfp (localtime : Int → Tm) (env : Env) (g : State)
    (h : g.s_logfp = none ∨ interval_days0 env g > 0) :
    (shift_rotate localtime env g).s_logfp = none := by
  unfold shift_rotate
  simp only [h, if_true]
  cases hfp : g.s_logfp with
  | none => simp only [sweep_s_logfp, hfp]
  | some fp => simp [sweep_s_logfp, c_fclose, hfp]

theorem shift_rotate_statics (localtime : Int → Tm) (env : Env) (g : State) :
    (shift_rotate localtime env g).s_cur_logfile = g.s_cur_logfile ∧
    (shift_rotate localtime env g).s_last_logfile_ts = g.s_last_logfile_ts := by
  unfold shift_rotate
  split
  · split
    · rename_i fp hfp
      rw [sweep_eq]
      simp [c_fclose, hfp]
    · rw [sweep_eq]
      simp
  · simp

/-- A call of `file_logger` that finds no open stream after the rotation
step and whose opens succeed: the record is appended to the file of today,
which is the current file afterwards; no other path changes after the
rotation step. -/
theorem file_logger_opened (K : Consts) (localtime : Int → Tm) (env : Env) (g : State)
    (buf : CStr) (len : Int)
    (hnone : (shift_rotate localtime env g).s_logfp = none)
    (ha : env.fopen_a = true) (hw : env.ftell > K.MAX_LOG_FILESIZE → env.fopen_w = true) :
    (∃ m, (file_logger K localtime env g buf len).s_logfp
      = some ⟨ts_logfile localtime g.s_logfile env.time 256, m⟩) ∧
    (file_logger K localtime env g buf len).s_cur_logfile
      = ts_logfile localtime g.s_logfile env.time 256 ∧
    (file_logger K localtime env g buf len).s_last_logfile_ts = env.time ∧
    (∃ c, (file_logger K localtime env g buf len).disk
      (ts_logfile localtime g.s_logfile env.time 256) = some (c ++ buf ++ ['\n'])) ∧
    (∀ q, q ≠ ts_logfile localtime g.s_logfile env.time 256 →
      (file_logger K localtime env g buf len).disk q
        = (shift_rotate localtime env g).disk q) := by
  have hcfg := (shift_rotate_sameConfig localtime env g).2.2.1
  by_cases hbig : env.ftell > K.MAX_LOG_FILESIZE
  · have hw2 := hw hbig
    simp only [file_logger, shift_logfile, shift_rewrite, shift_open, c_fopen, c_fclose, hnone,
      ha, hw2, hbig, hcfg, State.emit, Disk.fopen, Disk.write]
    refine ⟨⟨Mode.w, by simp; split <;> rfl⟩, by simp; split <;> rfl, by simp; split <;> rfl,
      ⟨[], ?_⟩, ?_⟩
    · simp; split <;> simp [Disk.fopen, Disk.write]
    · intro q hq
      simp; split <;> simp [Disk.fopen, Disk.write, hq]
  · simp only [file_logger, shift_logfile, shift_rewrite, shift_open, c_fopen, c_fclose, hnone,
      ha, hbig, hcfg, State.emit, Disk.fopen, Disk.write]
    refine ⟨⟨Mode.a, by simp; split <;> rfl⟩, by simp; split <;> rfl, by simp; split <;> rfl,
      ⟨(((shift_rotate localtime env g).disk
        (ts_logfile localtime g.s_logfile env.time 256)).getD []), ?_⟩, ?_⟩
    · simp; split <;> simp [Disk.fopen, Disk.write]
    · intro q hq
      simp; split <;> simp [Disk.fopen, Disk.write, hq]

/-! ## C4: size rollover -/

/-- C4 (size rollover preserves the name, P5/I4). Let a file be open when
`shift_logfile` reaches the size check. If the position reported by `ftell`
exceeds `MAX_LOG_FILESIZE`, the call closes the stream and calls
`fopen(s_cur_logfile, "w")`; `s_cur_logfile` and `s_last_logfile_ts` are as
they were at the check; when that open succeeds the stream is open on the
same name, the file under that name is empty and no other path has changed.
If the position is at most `MAX_LOG_FILESIZE` the check changes nothing (no
close, no open, no truncation). When the file was already open at entry and
the day bucket has not advanced, the state at the check is the state at
entry. -/
theorem shift_logfile_size_rollover (K : Consts) (localtime : Int → Tm) (env : Env) (g : State)
    (fp : FILE) (hopen : (at_size_check localtime env g).s_logfp = some fp) :
    (env.ftell > K.MAX_LOG_FILESIZE →
      (shift_logfile K localtime env g).s_cur_logfile
        = (at_size_check localtime env g).s_cur_logfile ∧
      (shift_logfile K localtime env g).s_last_logfile_ts
        = (at_size_check localtime env g).s_last_logfile_ts ∧
      (shift_logfile K localtime env g).trace = (at_size_check localtime env g).trace ++
        [Event.fclose fp.path,
         Event.fopen (at_size_check localtime env g).s_cur_logfile Mode.w env.fopen_w] ∧
      (env.fopen_w = true →
        (shift_logfile K localtime env g).s_logfp
          = some ⟨(at_size_check localtime env g).s_cur_logfile, Mode.w⟩ ∧
        (shift_logfile K localtime env g).disk (at_size_check localtime env g).s_cur_logfile
          = some [] ∧
        ∀ q, q ≠ (at_size_check localtime env g).s_cur_logfile →
          (shift_logfile K localtime env g).disk q = (at_size_check localtime env g).disk q)) ∧
    (env.ftell ≤ K.MAX_LOG_FILESIZE →
      shift_logfile K localtime env g = at_size_check localtime env g) ∧
    (g.s_logfp ≠ none → interval_days0 env g ≤ 0 → at_size_check localtime env g = g) := by
  have hsl : shift_logfile K localtime env g
      = shift_rewrite K env (at_size_check localtime env g) := rfl
  refine ⟨?_, ?_, ?_⟩
  · intro hbig
    rw [hsl]
    cases hw : env.fopen_w <;>
      simp [shift_rewrite, c_fopen, c_fclose, hopen, hbig, hw, Disk.fopen]
    intro q hq
    simp [hq]
  · intro hsmall
    rw [hsl]
    have : ¬ env.ftell > K.MAX_LOG_FILESIZE := by omega
    simp [shift_rewrite, this]
  · intro hfp hd
    obtain ⟨fp0, hfp0⟩ := Option.ne_none_iff_exists'.mp hfp
    unfold at_size_check
    rw [shift_rotate_sameday localtime env g fp0 hfp0 hd]
    simp [shift_open, hfp0]

/-- Witness for C4, in the sample process: after one record in "app-2023-11-14.log",
a call that finds the position at 16777217 leaves the name as it is and the
file empty. -/
theorem shift_logfile_size_rollover_witness :
    (file_logger hlog_h_sample (localtime_fixed 0) (env_sample 1700000000 0) g_app
      "first".toList 5).disk "app-2023-11-14.log".toList = some "first\n".toList ∧
    (shift_logfile hlog_h_sample (localtime_fixed 0) (env_sample 1700000100 16777217)
      (file_logger hlog_h_sample (localtime_fixed 0) (env_sample 1700000000 0) g_app
        "first".toList 5)).s_cur_logfile = "app-2023-11-14.log".toList ∧
    (shift_logfile hlog_h_sample (localtime_fixed 0) (env_sample 1700000100 16777217)
      (file_logger hlog_h_sample (localtime_fixed 0) (env_sample 1700000000 0) g_app
        "first".toList 5)).disk "app-2023-11-14.log".toList = some [] := by
  have h := (shift_logfile_size_rollover hlog_h_sample (localtime_fixed 0)
    (env_sample 1700000100 16777217)
    (file_logger hlog_h_sample (localtime_fixed 0) (env_sample 1700000000 0) g_app
      "first".toList 5) ⟨"app-2023-11-14.log".toList, Mode.a⟩ (by decide)).1 (by decide)
  have hname : (at_size_check (localtime_fixed 0) (env_sample 1700000100 16777217)
    (file_logger hlog_h_sample (localtime_fixed 0) (env_sample 1700000000 0) g_app
      "first".toList 5)).s_cur_logfile = "app-2023-11-14.log".toList := by decide
  refine ⟨by decide, h.1.trans hname, ?_⟩
  have h3 := (h.2.2.2 rfl).2.1
  rw [hname] at h3
  exact h3

/-! ## C10: a failed open -/

theorem shift_rotate_trace_nowrite (localtime : Int → Tm) (env : Env) (g : State) :
    ∃ evs : List Event, (shift_rotate localtime env g).trace = g.trace ++ evs ∧
      ∀ e ∈ evs, is_write_event e = false := by
  unfold shift_rotate
  split
  · split
    · rename_i fp hfp
      rw [sweep_eq]
      refine ⟨Event.fclose fp.path ::
        (sweep_paths localtime env (interval_days0 env g) (c_fclose g)).map Event.remove, ?_, ?_⟩
      · simp [c_fclose, hfp]
      · intro e he
        rcases List.mem_cons.mp he with h | h
        · subst h; rfl
        · obtain ⟨p, _, rfl⟩ := List.mem_map.mp h
          rfl
    · rw [sweep_eq]
      refine ⟨(sweep_paths localtime env 30 g).map Event.remove, rfl, ?_⟩
      intro e he
      obtain ⟨p, _, rfl⟩ := List.mem_map.mp he
      rfl
  · exact ⟨[], by simp, by simp⟩

theorem shift_rotate_disk_shrinks (localtime : Int → Tm) (env : Env) (g : State) (q c : CStr)
    (h : (shift_rotate localtime env g).disk q = some c) : g.disk q = some c := by
  unfold shift_rotate at h
  split at h
  · split at h
    · rename_i fp hfp
      rw [sweep_disk] at h
      split at h
      · simp at h
      · simpa [c_fclose, hfp] using h
    · rw [sweep_disk] at h
      split at h
      · simp at h
      · exact h
  · exact h

/-- The events of a call of `file_logger` that opens the file of today:
the call `fopen(name, "a")` is among them. -/
theorem file_logger_open_attempt (K : Consts) (localtime : Int → Tm) (env : Env) (g : State)
    (buf : CStr) (len : Int) (hnone : (shift_rotate localtime env g).s_logfp = none) :
    ∃ evs : List Event, (file_logger K localtime env g buf len).trace = g.trace ++ evs ∧
      Event.fopen (ts_logfile localtime g.s_logfile env.time 256) Mode.a env.fopen_a ∈ evs := by
  obtain ⟨e1, ht1, _⟩ := shift_rotate_fileOnly localtime env g
  have hcfg := (shift_rotate_sameConfig localtime env g).2.2.1
  have hopen : (shift_open localtime env (shift_rotate localtime env g)).trace =
      g.trace ++ (e1 ++ [Event.fopen (ts_logfile localtime g.s_logfile env.time 256) Mode.a
        env.fopen_a]) := by
    unfold shift_open c_fopen
    cases ha : env.fopen_a <;> simp [hnone, ht1, hcfg]
  obtain ⟨e3, ht3, _⟩ := shift_rewrite_fileOnly K env
    (shift_open localtime env (shift_rotate localtime env g))
  have hsl : (shift_logfile K localtime env g).trace =
      g.trace ++ (e1 ++ [Event.fopen (ts_logfile localtime g.s_logfile env.time 256) Mode.a
        env.fopen_a] ++ e3) := by
    unfold shift_logfile
    rw [ht3, hopen]
    simp
  unfold file_logger
  cases hfp : (shift_logfile K localtime env g).s_logfp with
  | none =>
    exact ⟨_, by simpa [hfp] using hsl, by simp⟩
  | some fp =>
    simp only [hfp]
    split
    · exact ⟨e1 ++ [Event.fopen (ts_logfile localtime g.s_logfile env.time 256) Mode.a
        env.fopen_a] ++ e3 ++ [Event.fprintf fp.path (buf ++ ['\n']), Event.fflush fp.path],
        by simp [State.emit, hsl], by simp⟩
    · exact ⟨e1 ++ [Event.fopen (ts_logfile localtime g.s_logfile env.time 256) Mode.a
        env.fopen_a] ++ e3 ++ [Event.fprintf fp.path (buf ++ ['\n'])],
        by simp [hsl], by simp⟩

/-- C10 (open failure is absorbed and retried). Let a call of `file_logger`
open the file of today (no stream is open, or the day bucket has advanced)
and let that open fail. Then the call returns with no stream open, its
events contain the failed `fopen` and no `fprintf`, and no file has gained
or changed content. In the next call, whatever its surroundings, `fopen` in
mode "a" is called again on the file of that call's today; when the opens of
that call succeed, its record is appended to that file. -/
theorem file_logger_open_failure (K : Consts) (localtime : Int → Tm) (env : Env) (g : State)
    (buf : CStr) (len : Int)
    (hattempt : g.s_logfp = none ∨ interval_days0 env g > 0)
    (hfail : env.fopen_a = false) :
    (file_logger K localtime env g buf len).s_logfp = none ∧
    (∃ evs : List Event, (file_logger K localtime env g buf len).trace = g.trace ++ evs ∧
      Event.fopen (ts_logfile localtime g.s_logfile env.time 256) Mode.a false ∈ evs ∧
      ∀ e ∈ evs, is_write_event e = false) ∧
    (∀ q c, (file_logger K localtime env g buf len).disk q = some c → g.disk q = some c) ∧
    ∀ (env2 : Env) (buf2 : CStr) (len2 : Int),
      (∃ evs : List Event,
        (file_logger K localtime env2 (file_logger K localtime env g buf len) buf2 len2).trace
          = (file_logger K localtime env g buf len).trace ++ evs ∧
        Event.fopen (ts_logfile localtime g.s_logfile env2.time 256) Mode.a env2.fopen_a
          ∈ evs) ∧
      (env2.fopen_a = true → (env2.ftell > K.MAX_LOG_FILESIZE → env2.fopen_w = true) →
        ∃ c, (file_logger K localtime env2 (file_logger K localtime env g buf len) buf2
          len2).disk (ts_logfile localtime g.s_logfile env2.time 256)
            = some (c ++ buf2 ++ ['\n'])) := by
  have hnone := shift_rotate_s_logfp localtime env g hattempt
  have hcfg := (shift_rotate_sameConfig localtime env g).2.2.1
  obtain ⟨e1, ht1, hnw⟩ := shift_rotate_trace_nowrite localtime env g
  have hfl : file_logger K localtime env g buf len =
      { shift_rotate localtime env g with
        s_cur_logfile := ts_logfile localtime g.s_logfile env.time 256
        s_logfp := none
        s_last_logfile_ts := env.time
        trace := (shift_rotate localtime env g).trace ++
          [Event.fopen (ts_logfile localtime g.s_logfile env.time 256) Mode.a false] } := by
    simp [file_logger, shift_logfile, shift_rewrite, shift_open, c_fopen, hnone, hfail, hcfg]
  have hfp1 : (file_logger K localtime env g buf len).s_logfp = none := by rw [hfl]
  have hbase : (file_logger K localtime env g buf len).s_logfile = g.s_logfile :=
    (file_logger_sameConfig K localtime env g buf len).2.2.1
  refine ⟨hfp1, ⟨e1 ++ [Event.fopen (ts_logfile localtime g.s_logfile env.time 256) Mode.a
    false], ?_, by simp, ?_⟩, ?_, ?_⟩
  · rw [hfl]
    simp [ht1]
  · intro e he
    rcases List.mem_append.mp he with h | h
    · exact hnw e h
    · simp at h
      subst h
      rfl
  · intro q c hq
    rw [hfl] at hq
    exact shift_rotate_disk_shrinks localtime env g q c hq
  · intro env2 buf2 len2
    have hnone2 := shift_rotate_s_logfp localtime env2 (file_logger K localtime env g buf len)
      (Or.inl hfp1)
    constructor
    · have := file_logger_open_attempt K localtime env2 (file_logger K localtime env g buf len)
        buf2 len2 hnone2
      rw [hbase] at this
      exact this
    · intro ha hw
      have := (file_logger_opened K localtime env2 (file_logger K localtime env g buf len)
        buf2 len2 hnone2 ha hw).2.2.2.1
      rw [hbase] at this
      exact this

/-- Witness for C10, in the sample process: the first open fails and leaves no stream
open; one minute later the open succeeds and "second" is appended to the
file of the day. -/
theorem file_logger_open_failure_witness :
    (file_logger hlog_h_sample (localtime_fixed 0)
      { env_sample 1700000000 0 with fopen_a := false } g_app "first".toList 5).s_logfp = none ∧
    ∃ c, (file_logger hlog_h_sample (localtime_fixed 0) (env_sample 1700000060 0)
      (file_logger hlog_h_sample (localtime_fixed 0)
        { env_sample 1700000000 0 with fopen_a := false } g_app "first".toList 5)
      "second".toList 6).disk
        (ts_logfile (localtime_fixed 0) g_app.s_logfile (env_sample 1700000060 0).time 256)
      = some (c ++ "second".toList ++ ['\n']) :=
  have h := file_logger_open_failure hlog_h_sample (localtime_fixed 0)
    { env_sample 1700000000 0 with fopen_a := false } g_app "first".toList 5 (Or.inl rfl) rfl
  ⟨h.1, (h.2.2.2 (env_sample 1700000060 0) "second".toList 6).2 rfl (fun _ => rfl)⟩

/-! ## C2: retention over consecutive days -/

/-- C1, evaluated at a failing input: in a zone eight hours east of UTC
(UTC+8), two writes at 23:59:59 on 2023-11-15 and 00:00:01 on 2023-11-16
local time (epoch 1700063999 and 1700064001, the same UTC day bucket). The
local dates differ and the name for the second date is
"app-2023-11-16.log", yet both records are in "app-2023-11-15.log", which is
still the open stream, and "app-2023-11-16.log" does not exist. -/
theorem day_rotation_misses_local_midnight :
    local_date (localtime_fixed 28800) 1700063999 = (2023, 11, 15) ∧
    local_date (localtime_fixed 28800) 1700064001 = (2023, 11, 16) ∧
    ts_logfile (localtime_fixed 28800) g_app.s_logfile 1700064001 256
      = "app-2023-11-16.log".toList ∧
    (run_file_logger hlog_h_sample (localtime_fixed 28800) g_app
      [(env_sample 1700063999 0, "first".toList), (env_sample 1700064001 0, "second".toList)]).disk
      "app-2023-11-15.log".toList = some "first\nsecond\n".toList ∧
    (run_file_logger hlog_h_sample (localtime_fixed 28800) g_app
      [(env_sample 1700063999 0, "first".toList), (env_sample 1700064001 0, "second".toList)]).disk
      "app-2023-11-16.log".toList = none ∧
    (run_file_logger hlog_h_sample (localtime_fixed 28800) g_app
      [(env_sample 1700063999 0, "first".toList), (env_sample 1700064001 0, "second".toList)]).s_logfp
      = some ⟨"app-2023-11-15.log".toList, Mode.a⟩ := by
  refine ⟨by decide, by decide, by decide, by decide, by decide, by decide⟩

/-- C3, evaluated at a failing input: two retention days and writes on
2023-11-14, 11-15, 11-17 and 11-18 (UTC; one day is skipped). After the
fourth write three daily files written by the sink are on disk: those of
11-14, 11-17 and 11-18. -/
theorem retention_bound_fails_after_a_skipped_day :
    (hlog_set_remain_days g_app 2).s_remain_days = 2 ∧
    (run_file_logger hlog_h_sample (localtime_fixed 0) (hlog_set_remain_days g_app 2)
      [(env_sample 1700000000 0, "day 1".toList), (env_sample 1700086400 0, "day 2".toList),
       (env_sample 1700259200 0, "day 4".toList), (env_sample 1700345600 0, "day 5".toList)]).disk
      "app-2023-11-14.log".toList = some "day 1\n".toList ∧
    (run_file_logger hlog_h_sample (localtime_fixed 0) (hlog_set_remain_days g_app 2)
      [(env_sample 1700000000 0, "day 1".toList), (env_sample 1700086400 0, "day 2".toList),
       (env_sample 1700259200 0, "day 4".toList), (env_sample 1700345600 0, "day 5".toList)]).disk
      "app-2023-11-17.log".toList = some "day 4\n".toList ∧
    (run_file_logger hlog_h_sample (localtime_fixed 0) (hlog_set_remain_days g_app 2)
      [(env_sample 1700000000 0, "day 1".toList), (env_sample 1700086400 0, "day 2".toList),
       (env_sample 1700259200 0, "day 4".toList), (env_sample 1700345600 0, "day 5".toList)]).disk
      "app-2023-11-18.log".toList = some "day 5\n".toList := by
  refine ⟨rfl, by decide, by decide, by decide⟩

/-! ## Lemmas on the events of one call of `shift_logfile` -/

theorem removed_paths_append (a b : List Event) :
    removed_paths (a ++ b) = removed_paths a ++ removed_paths b := by
  simp [removed_paths, List.filterMap_append]

theorem removed_paths_map_remove (ps : List CStr) :
    removed_paths (ps.map Event.remove) = ps := by
  induction ps with
  | nil => rfl
  | cons p ps ih =>
    simp only [List.map_cons, removed_paths, List.filterMap_cons] at ih ⊢
    rw [ih]

theorem new_events_append (g g2 : State) (evs : List Event) (h : g2.trace = g.trace ++ evs) :
    new_events g g2 = evs := by
  unfold new_events
  rw [h, List.drop_left]

theorem sweep_paths_c_fclose (localtime : Int → Tm) (env : Env) (d : Int) (g : State) :
    sweep_paths localtime env d (c_fclose g) = sweep_paths localtime env d g := by
  unfold sweep_paths c_fclose
  cases g.s_logfp <;> rfl

theorem shift_rotate_eq_sweep (localtime : Int → Tm) (env : Env) (g : State)
    (h : rotates env g) :
    shift_rotate localtime env g = sweep localtime env (sweep_interval env g) (c_fclose g) := by
  unfold rotates at h
  unfold shift_rotate sweep_interval
  simp only [h, if_true]
  cases hfp : g.s_logfp with
  | none => simp [c_fclose, hfp]
  | some fp => simp

theorem shift_rotate_no_rotation (localtime : Int → Tm) (env : Env) (g : State)
    (h : ¬ rotates env g) : shift_rotate localtime env g = g := by
  unfold rotates at h
  unfold shift_rotate
  simp only [h, if_false]

theorem c_fclose_s_logfp (g : State) : (c_fclose g).s_logfp = none := by
  unfold c_fclose
  cases h : g.s_logfp <;> simp [h]

theorem c_fclose_removed (g : State) :
    removed_paths (c_fclose g).trace = removed_paths g.trace := by
  unfold c_fclose
  cases h : g.s_logfp <;> simp [removed_paths_append, removed_paths]

theorem c_fopen_removed (g : State) (ok : Bool) (p : CStr) (m : Mode) :
    removed_paths (c_fopen g ok p m).trace = removed_paths g.trace := by
  unfold c_fopen
  cases ok <;> simp [removed_paths_append, removed_paths]

theorem shift_rotate_removed (localtime : Int → Tm) (env : Env) (g : State)
    (h : rotates env g) :
    removed_paths (shift_rotate localtime env g).trace =
      removed_paths g.trace ++ sweep_paths localtime env (sweep_interval env g) g := by
  rw [shift_rotate_eq_sweep localtime env g h, sweep_eq]
  simp only [removed_paths_append, removed_paths_map_remove, c_fclose_removed,
    sweep_paths_c_fclose]

theorem shift_open_removed (localtime : Int → Tm) (env : Env) (g : State) :
    removed_paths (shift_open localtime env g).trace = removed_paths g.trace := by
  unfold shift_open
  split
  · exact c_fopen_removed _ _ _ _
  · rfl

theorem shift_rewrite_removed (K : Consts) (env : Env) (g : State) :
    removed_paths (shift_rewrite K env g).trace = removed_paths g.trace := by
  unfold shift_rewrite
  split
  · rw [c_fopen_removed, c_fclose_removed]
  · rfl

/-- The paths removed by one call of `shift_logfile`: those of the sweep when
the call rotates, none otherwise. -/
theorem shift_logfile_removed (K : Consts) (localtime : Int → Tm) (env : Env) (g : State) :
    (rotates env g → removed_paths (new_events g (shift_logfile K localtime env g))
      = sweep_paths localtime env (sweep_interval env g) g) ∧
    (¬ rotates env g → removed_paths (new_events g (shift_logfile K localtime env g)) = []) := by
  obtain ⟨evs, ht, _⟩ := shift_logfile_fileOnly K localtime env g
  have hall : removed_paths (shift_logfile K localtime env g).trace
      = removed_paths (shift_rotate localtime env g).trace := by
    unfold shift_logfile
    rw [shift_rewrite_removed, shift_open_removed]
  rw [new_events_append g _ evs ht]
  rw [ht, removed_paths_append] at hall
  constructor
  · intro h
    rw [shift_rotate_removed localtime env g h] at hall
    exact List.append_cancel_left hall
  · intro h
    rw [shift_rotate_no_rotation localtime env g h] at hall
    have : removed_paths g.trace ++ removed_paths evs = removed_paths g.trace ++ [] := by
      simpa using hall
    exact List.append_cancel_left this

theorem mem_for_down (hi lo i : Int) : i ∈ for_down hi lo ↔ lo ≤ i ∧ i ≤ hi := by
  unfold for_down
  simp only [List.mem_map, List.bind_eq_flatMap, List.mem_flatMap, List.mem_range, List.pure_def,
    List.mem_singleton]
  constructor
  · rintro ⟨k, ⟨n, hn, rfl⟩, rfl⟩
    rw [Int.lt_toNat] at hn
    omega
  · intro h
    refine ⟨hi - i, ⟨(hi - i).toNat, ?_, ?_⟩, by omega⟩
    · rw [Int.lt_toNat, Int.toNat_of_nonneg (by omega)]
      omega
    · rw [Int.toNat_of_nonneg (by omega)]

/-- The targets of the sweep as a set. -/
theorem mem_sweep_paths (localtime : Int → Tm) (env : Env) (d : Int) (g : State) (p : CStr) :
    p ∈ sweep_paths localtime env d g ↔
      if d ≥ g.s_remain_days then
        ∃ i : Int, g.s_remain_days ≤ i ∧ i ≤ d ∧
          p = ts_logfile localtime g.s_logfile (env.time - int_mul i SECONDS_PER_DAY) 256
      else p = ts_logfile localtime g.s_logfile
        (env.time - int_mul g.s_remain_days SECONDS_PER_DAY) 256 := by
  unfold sweep_paths
  by_cases h : d ≥ g.s_remain_days
  · simp only [h, if_true, List.mem_map, mem_for_down]
    constructor
    · rintro ⟨i, ⟨h1, h2⟩, rfl⟩
      exact ⟨i, h1, h2, rfl⟩
    · rintro ⟨i, h1, h2, rfl⟩
      exact ⟨i, ⟨h1, h2⟩, rfl⟩
  · simp only [h, if_false, List.mem_singleton]

/-! ## Names cut by the name buffer -/

theorem ts_logfile_long_base (localtime : Int → Tm) (base : CStr) (ts : Int)
    (h : base.length = 255) : ts_logfile localtime base ts 256 = base := by
  unfold ts_logfile snprintf_text ts_logfile_fmt
  simp only [List.append_assoc]
  exact List.take_left' h


/-! ## C12 and C13: `hlog_set_file` -/

/-- C12 (configuration error). `hlog_set_file` returns -10, a negative
status, exactly when its argument is NULL or the empty string, and then the
whole state, the stored base path included, is as before; for every
non-empty argument it returns 0. -/
theorem hlog_set_file_status (g : State) (logfile : Option CStr) :
    ((hlog_set_file g logfile).2 = -10 ↔ (logfile = none ∨ logfile = some [])) ∧
    ((hlog_set_file g logfile).2 < 0 ↔ (logfile = none ∨ logfile = some [])) ∧
    ((logfile = none ∨ logfile = some []) → (hlog_set_file g logfile).1 = g) ∧
    (∀ p : CStr, logfile = some p → p ≠ [] → (hlog_set_file g logfile).2 = 0) := by
  cases logfile with
  | none => simp [hlog_set_file]
  | some p =>
    by_cases hp : p = []
    · subst hp
      simp [hlog_set_file]
    · have hlen : p.length ≠ 0 := fun h => hp (List.length_eq_zero.mp h)
      have h0 : (hlog_set_file g (some p)).2 = 0 := by
        unfold hlog_set_file
        simp only [hlen, if_false]
        split
        · split <;> rfl
        · rfl
      refine ⟨?_, ?_, ?_, ?_⟩
      · rw [h0]; simp [hp]
      · rw [h0]; simp [hp]
      · intro h
        simp [hp] at h
      · intro q hq _
        exact h0

/-- Witness for C12: NULL and "" are rejected with -10 and leave the base path
"default"; "app.log" is accepted with 0. -/
theorem hlog_set_file_status_witness :
    (hlog_set_file g_sample none).2 = -10 ∧
    (hlog_set_file g_sample (some [])).2 = -10 ∧
    (hlog_set_file g_sample (some [])).1.s_logfile = "default".toList ∧
    (hlog_set_file g_sample (some "app.log".toList)).2 = 0 := by
  have h1 := hlog_set_file_status g_sample none
  have h2 := hlog_set_file_status g_sample (some [])
  have h3 := hlog_set_file_status g_sample (some "app.log".toList)
  refine ⟨h1.1.mpr (Or.inl rfl), h2.1.mpr (Or.inr rfl), ?_, h3.2.2.2 _ rfl (by decide)⟩
  rw [h2.2.2.1 (Or.inr rfl)]
  rfl

theorem strrchr_of_not_mem (s : CStr) (c : Char) (h : c ∉ s) : strrchr s c = none := by
  induction s with
  | nil => rfl
  | cons x xs ih =>
    have hx : x ≠ c := fun e => h (by rw [e]; exact List.mem_cons_self _ _)
    have hxs : c ∉ xs := fun m => h (List.mem_cons_of_mem _ m)
    simp [strrchr, ih hxs, hx]

theorem strrchr_append (a b : CStr) (c : Char) (h : c ∉ b) :
    strrchr (a ++ c :: b) c = some a.length := by
  induction a with
  | nil => simp [strrchr, strrchr_of_not_mem b c h]
  | cons x xs ih => simp [strrchr, ih]

theorem hlog_set_file_s_logfile (g : State) (p : CStr) (hne : p ≠ []) (hlen : p.length < 256) :
    ((∃ s : CStr, p = s ++ ".log".toList) →
      (hlog_set_file g (some p)).1.s_logfile = p.take (p.length - 4)) ∧
    ((¬ ∃ s : CStr, p = s ++ ".log".toList) →
      (hlog_set_file g (some p)).1.s_logfile = p) := by
  have hl0 : p.length ≠ 0 := fun h => hne (List.length_eq_zero.mp h)
  have htake : p.take 256 = p := List.take_of_length_le (by omega)
  constructor
  · rintro ⟨s, rfl⟩
    have hidx : strrchr (s ++ ".log".toList) '.' = some s.length :=
      strrchr_append s "log".toList '.' (by decide)
    unfold hlog_set_file
    simp only [hl0, if_false, htake, hidx, List.drop_left, if_true]
    simp
  · intro hno
    unfold hlog_set_file
    simp only [hl0, if_false, htake]
    split
    · rename_i i hi
      split
      · rename_i hd
        exfalso
        apply hno
        refine ⟨p.take i, ?_⟩
        rw [← hd, List.take_append_drop]
      · rfl
    · rfl

/-- C13 (suffix stripping). For a non-empty path `p` of fewer than 256
characters, the base path stored by `hlog_set_file(p)` is `p` without its
last four characters when `p` ends with ".log", and `p` itself otherwise.
Hence, when `p` is `s` followed by ".log" for a non-empty `s` that does not
end with ".log", every daily file name derived after `hlog_set_file(p)` is
the one derived after `hlog_set_file(s)`. -/
theorem hlog_set_file_strips_suffix (g : State) (p : CStr) (hne : p ≠ [])
    (hlen : p.length < 256) :
    ((∃ s : CStr, p = s ++ ".log".toList) →
      (hlog_set_file g (some p)).1.s_logfile = p.take (p.length - 4)) ∧
    ((¬ ∃ s : CStr, p = s ++ ".log".toList) →
      (hlog_set_file g (some p)).1.s_logfile = p) ∧
    (∀ (s : CStr) (g2 : State) (localtime : Int → Tm) (t : Int),
      p = s ++ ".log".toList → s ≠ [] → (¬ ∃ r : CStr, s = r ++ ".log".toList) →
      ts_logfile localtime (hlog_set_file g (some p)).1.s_logfile t 256
        = ts_logfile localtime (hlog_set_file g2 (some s)).1.s_logfile t 256) := by
  have h := hlog_set_file_s_logfile g p hne hlen
  refine ⟨h.1, h.2, ?_⟩
  intro s g2 localtime t hp hs hno
  have hslen : s.length < 256 := by
    rw [hp, List.length_append] at hlen
    omega
  rw [h.1 ⟨s, hp⟩, (hlog_set_file_s_logfile g2 s hs hslen).2 hno, hp]
  simp

/-- Witness for C13: "app.log" is stored as "app", "app.txt" as it is, and the
daily name after "app.log" is the one after "app". -/
theorem hlog_set_file_strips_suffix_witness :
    (hlog_set_file g_sample (some "app.log".toList)).1.s_logfile = "app".toList ∧
    (hlog_set_file g_sample (some "app.txt".toList)).1.s_logfile = "app.txt".toList ∧
    ts_logfile (localtime_fixed 0) (hlog_set_file g_sample (some "app.log".toList)).1.s_logfile
        1700000000 256
      = ts_logfile (localtime_fixed 0) (hlog_set_file g_sample (some "app".toList)).1.s_logfile
        1700000000 256 := by
  have h1 := hlog_set_file_strips_suffix g_sample "app.log".toList (by decide) (by decide)
  have h2 := hlog_set_file_strips_suffix g_sample "app.txt".toList (by decide) (by decide)
  refine ⟨(h1.1 ⟨"app".toList, rfl⟩).trans (by decide), h2.2.1 ?_,
    h1.2.2 "app".toList g_sample (localtime_fixed 0) 1700000000 rfl (by decide) ?_⟩
  · rintro ⟨s, hs⟩
    have hlen := congrArg List.length hs
    simp at hlen
    have : s.length = 3 := by omega
    match s, this with
    | [a, b, c], _ =>
      simp at hs
  · rintro ⟨s, hs⟩
    have hlen := congrArg List.length hs
    simp at hlen

/-! ## C14: color codes -/

theorem level_row_of_not_mem (levels : List (Int × CStr × CStr)) (level : Int)
    (h : ∀ r ∈ levels, r.1 ≠ level) : level_row levels level = ([], []) := by
  unfold level_row
  have : levels.find? (fun r => decide (r.1 = level)) = none := by
    rw [List.find?_eq_none]
    intro r hr
    simpa using h r hr
  rw [this]

theorem hlog_printf_sample_overlong :
    (hlog_printf hlog_h_sample (localtime_fixed 0) (env_sample 1699923723 0)
      (hlog_enable_color g_sample 0) 2 (List.replicate 8192 'x')).1.s_logbuf.length = 8191 := by
  have hpass : (hlog_enable_color g_sample 0).s_loglevel ≤ 2 := by decide
  obtain ⟨r, fevs, hr, _, hbuf, _, _⟩ := hlog_printf_pass hlog_h_sample (localtime_fixed 0)
    (env_sample 1699923723 0) (hlog_enable_color g_sample 0) 2 (List.replicate 8192 'x') hpass
  have hhead : (log_header (if (hlog_enable_color g_sample 0).s_logcolor then
      (level_row hlog_h_sample.levels 2).2 else []) (level_row hlog_h_sample.levels 2).1
      (env_sample 1699923723 0).datetime_now).length = 34 := by decide
  rw [hbuf, hr, hlog_render_overlong]
  · rw [List.length_take, List.length_append, hhead, List.length_replicate]
    rfl
  · rw [hhead]; decide
  · rw [hhead, List.length_replicate]; decide

/-- The buffer after the three appends of lines 60-71: the complete text cut
to `LOG_BUFSIZE - 1` characters. An append that starts at or behind the end
of the buffer stores nothing in it. -/
theorem hlog_render_cut (K : Consts) (g : State) (pcolor plevel : CStr) (now : datetime_t)
    (msg : CStr) (hB : 0 < K.LOG_BUFSIZE) :
    (hlog_render K g pcolor plevel now msg).1.s_logbuf =
      (log_header pcolor plevel now ++ msg ++ (if g.s_logcolor then K.CL_CLR else [])).take
        (K.LOG_BUFSIZE - 1) := by
  have e1 : (snprintf_at K g 0 (log_header pcolor plevel now)).s_logbuf
      = (log_header pcolor plevel now).take (K.LOG_BUFSIZE - 1) := snprintf_at_first K g _ hB
  have e2 : (snprintf_at K (snprintf_at K g 0 (log_header pcolor plevel now))
      ((log_header pcolor plevel now).length : Int) msg).s_logbuf
      = (log_header pcolor plevel now ++ msg).take (K.LOG_BUFSIZE - 1) := by
    by_cases hh : (log_header pcolor plevel now).length < K.LOG_BUFSIZE
    · have e1b : (snprintf_at K g 0 (log_header pcolor plevel now)).s_logbuf
          = log_header pcolor plevel now := by
        rw [e1]
        exact List.take_of_length_le (by omega)
      have := snprintf_at_append_trunc K (snprintf_at K g 0 (log_header pcolor plevel now)) msg
        (by rw [e1b]; exact hh)
      rw [e1b] at this
      exact this
    · rw [snprintf_at_full K _ _ _ (by omega), e1,
        List.take_append_of_le_length (by omega)]
  unfold hlog_render
  cases hc : g.s_logcolor
  · simpa using e2
  · simp only [if_true]
    by_cases hlt : (log_header pcolor plevel now).length + msg.length < K.LOG_BUFSIZE
    · have e2b : (snprintf_at K (snprintf_at K g 0 (log_header pcolor plevel now))
          ((log_header pcolor plevel now).length : Int) msg).s_logbuf
          = log_header pcolor plevel now ++ msg := by
        rw [e2]
        exact List.take_of_length_le (by rw [List.length_append]; omega)
      have := snprintf_at_append_trunc K (snprintf_at K (snprintf_at K g 0
        (log_header pcolor plevel now)) ((log_header pcolor plevel now).length : Int) msg)
        K.CL_CLR (by rw [e2b, List.length_append]; exact hlt)
      rw [e2b, List.length_append] at this
      push_cast at this
      exact this
    · have hcut : (log_header pcolor plevel now ++ msg ++ K.CL_CLR).take (K.LOG_BUFSIZE - 1)
          = (log_header pcolor plevel now ++ msg).take (K.LOG_BUFSIZE - 1) :=
        List.take_append_of_le_length (by rw [List.length_append]; omega)
      rw [snprintf_at_full K _ _ _ (by omega), e2, hcut]

/-- C14 fails as stated, in two ways. With color on and level 0, which is not
in the sample level table and so has no color, the text for "hello" has no
color code in front but ends with the reset code `CL_CLR`. With color off
and a message of 8192 characters the buffer holds 8191 characters, so the
text does not end with the message. -/
theorem reset_code_without_color :
    level_row hlog_h_sample.levels 0 = ([], []) ∧
    (hlog_printf hlog_h_sample (localtime_fixed 0) (env_sample 1699923723 0)
      (hlog_enable_color g_sample 1) 0 "hello".toList).1.s_logbuf
      = "[2023-11-14 01:02:03.004][]: hello\x1b[0m".toList ∧
    (hlog_enable_color g_sample 0).s_logcolor = false ∧
    (hlog_printf hlog_h_sample (localtime_fixed 0) (env_sample 1699923723 0)
      (hlog_enable_color g_sample 0) 2 (List.replicate 8192 'x')).1.s_logbuf.length = 8191 ∧
    ¬ (List.replicate 8192 'x' <:+
      (hlog_printf hlog_h_sample (localtime_fixed 0) (env_sample 1699923723 0)
        (hlog_enable_color g_sample 0) 2 (List.replicate 8192 'x')).1.s_logbuf) := by
  refine ⟨by decide, by decide, by decide, hlog_printf_sample_overlong, ?_⟩
  intro h
  have hl := h.length_le
  rw [hlog_printf_sample_overlong, List.length_replicate] at hl
  omega

/-- C14, amended. For every integer level that passes the filter, in the
level table or not, and every message, the text in the buffer is the line
`[YYYY-MM-DD HH:MM:SS.mmm][LEVEL]: message`, preceded by the color code of
the level when color is on (nothing for a level without color code),
followed by `CL_CLR` whenever color is on, whatever the level, and cut to
`LOG_BUFSIZE - 1` characters. So with color off the text is the bare line
cut to `LOG_BUFSIZE - 1` characters: no color code and no reset code is
added, it begins with "[" (in a buffer of two bytes or more), and when the
line fits the buffer it is the whole line and ends with the message. With
color on, when color code, line and reset code fit the buffer, the text is
the three of them in a row. A level outside the table has empty label and
color code. -/
theorem hlog_printf_color_codes (K : Consts) (localtime : Int → Tm) (env : Env) (g : State)
    (level : Int) (msg : CStr)
    (hpass : g.s_loglevel ≤ level) (hB : 0 < K.LOG_BUFSIZE) :
    (hlog_printf K localtime env g level msg).1.s_logbuf
      = ((if g.s_logcolor then (level_row K.levels level).2 else [])
          ++ log_line (level_row K.levels level).1 env.datetime_now msg
          ++ (if g.s_logcolor then K.CL_CLR else [])).take (K.LOG_BUFSIZE - 1) ∧
    (g.s_logcolor = false →
      (hlog_printf K localtime env g level msg).1.s_logbuf
        = (log_line (level_row K.levels level).1 env.datetime_now msg).take
            (K.LOG_BUFSIZE - 1) ∧
      (2 ≤ K.LOG_BUFSIZE →
        (hlog_printf K localtime env g level msg).1.s_logbuf.head? = some '[') ∧
      ((log_line (level_row K.levels level).1 env.datetime_now msg).length < K.LOG_BUFSIZE →
        (hlog_printf K localtime env g level msg).1.s_logbuf
          = log_line (level_row K.levels level).1 env.datetime_now msg ∧
        msg <:+ (hlog_printf K localtime env g level msg).1.s_logbuf)) ∧
    (g.s_logcolor = true →
      (level_row K.levels level).2.length
        + (log_line (level_row K.levels level).1 env.datetime_now msg).length
        + K.CL_CLR.length < K.LOG_BUFSIZE →
      (hlog_printf K localtime env g level msg).1.s_logbuf
        = (level_row K.levels level).2
          ++ log_line (level_row K.levels level).1 env.datetime_now msg ++ K.CL_CLR) ∧
    ((∀ r ∈ K.levels, r.1 ≠ level) → level_row K.levels level = ([], [])) := by
  obtain ⟨r, fevs, hr, _, hbuf, _, _⟩ := hlog_printf_pass K localtime env g level msg hpass
  have hL := log_header_eq_log_line (if g.s_logcolor then (level_row K.levels level).2 else [])
    (level_row K.levels level).1 env.datetime_now msg
  have hgen : (hlog_printf K localtime env g level msg).1.s_logbuf
      = ((if g.s_logcolor then (level_row K.levels level).2 else [])
          ++ log_line (level_row K.levels level).1 env.datetime_now msg
          ++ (if g.s_logcolor then K.CL_CLR else [])).take (K.LOG_BUFSIZE - 1) := by
    rw [hbuf, hr, hlog_render_cut K _ _ _ _ _ hB, mutex_once_s_logcolor, hL]
  refine ⟨hgen, ?_, ?_, level_row_of_not_mem K.levels level⟩
  · intro hoff
    have htext : (hlog_printf K localtime env g level msg).1.s_logbuf
        = (log_line (level_row K.levels level).1 env.datetime_now msg).take
            (K.LOG_BUFSIZE - 1) := by
      rw [hgen, hoff]
      simp
    refine ⟨htext, ?_, ?_⟩
    · intro h2
      rw [htext]
      obtain ⟨n, hn⟩ : ∃ n, K.LOG_BUFSIZE - 1 = n + 1 := ⟨K.LOG_BUFSIZE - 2, by omega⟩
      rw [hn]
      simp [log_line]
    · intro hfit
      have hbare : (hlog_printf K localtime env g level msg).1.s_logbuf
          = log_line (level_row K.levels level).1 env.datetime_now msg := by
        rw [htext]
        exact List.take_of_length_le (by omega)
      refine ⟨hbare, ?_⟩
      rw [hbare]
      unfold log_line
      exact List.suffix_append _ _
  · intro hon hfit
    rw [hgen, hon]
    simp only [if_true]
    exact List.take_of_length_le (by simp only [List.length_append]; omega)

/-- Witness for C14 as amended, in the sample process. Color on, level WARN,
message "hello": the text is the line between the color code of WARN and the
reset code. Color off, level INFO: the text is the bare line. -/
theorem hlog_printf_color_codes_witness :
    (hlog_printf hlog_h_sample (localtime_fixed 0) (env_sample 1699923723 0)
      (hlog_enable_color g_sample 1) 3 "hello".toList).1.s_logbuf
      = "\x1b[33m[2023-11-14 01:02:03.004][WARN ]: hello\x1b[0m".toList ∧
    (hlog_printf hlog_h_sample (localtime_fixed 0) (env_sample 1699923723 0)
      g_sample 2 "hello".toList).1.s_logbuf
      = "[2023-11-14 01:02:03.004][INFO ]: hello".toList :=
  ⟨((hlog_printf_color_codes hlog_h_sample (localtime_fixed 0) (env_sample 1699923723 0)
      (hlog_enable_color g_sample 1) 3 "hello".toList (by decide) (by decide)).2.2.1 rfl
        (by decide)).trans (by decide),
   ((((hlog_printf_color_codes hlog_h_sample (localtime_fixed 0) (env_sample 1699923723 0)
      g_sample 2 "hello".toList (by decide) (by decide)).2.1 rfl).2.2 (by decide)).1).trans
        (by decide)⟩
/-! ## C16: the target set of the sweep -/

theorem interval_days0_eq_bucket_diff (env : Env) (g : State) (h : g.s_last_logfile_ts ≠ 0) :
    interval_days0 env g = bucket_diff env g := by
  unfold interval_days0 bucket_diff SECONDS_PER_DAY
  rw [if_neg h]

theorem tdiv_day_of_neg (a : Int) (h : a < 0) : a.tdiv 86400 = -((-a) / 86400) := by
  have h1 : (-a).tdiv 86400 = (-a) / 86400 := Int.tdiv_eq_ediv (by omega) (by decide)
  have h2 : (-a).tdiv 86400 = -(a.tdiv 86400) := Int.neg_tdiv a 86400
  omega

theorem tdiv_day_mono (a b : Int) (h : a ≤ b) : a.tdiv 86400 ≤ b.tdiv 86400 := by
  by_cases ha : 0 ≤ a
  · rw [Int.tdiv_eq_ediv ha (by decide), Int.tdiv_eq_ediv (by omega) (by decide)]
    omega
  · by_cases hb : 0 ≤ b
    · rw [tdiv_day_of_neg a (by omega), Int.tdiv_eq_ediv hb (by decide)]
      omega
    · rw [tdiv_day_of_neg a (by omega), tdiv_day_of_neg b (by omega)]
      omega

/-- After a call at time `t` the last-rotation
timestamp is set and lies in the day bucket of `t`, provided the clock does
not show 0 and has not run backwards since the stream was opened. -/
theorem shift_logfile_last_ts (K : Consts) (localtime : Int → Tm) (env : Env) (g : State)
    (ht : env.time ≠ 0)
    (hprior : g.s_logfp ≠ none → g.s_last_logfile_ts ≠ 0 ∧ g.s_last_logfile_ts ≤ env.time) :
    (shift_logfile K localtime env g).s_last_logfile_ts ≠ 0 ∧
    (shift_logfile K localtime env g).s_last_logfile_ts.tdiv 86400 = env.time.tdiv 86400 := by
  have hrw : (shift_logfile K localtime env g).s_last_logfile_ts
      = (at_size_check localtime env g).s_last_logfile_ts := by
    unfold shift_logfile at_size_check shift_rewrite
    split
    · unfold c_fopen c_fclose
      split <;> split <;> rfl
    · rfl
  rw [hrw]
  by_cases hrot : rotates env g
  · have hnone := shift_rotate_s_logfp localtime env g hrot
    have : (at_size_check localtime env g).s_last_logfile_ts = env.time := by
      unfold at_size_check shift_open
      simp only [hnone, if_true]
    rw [this]
    exact ⟨ht, rfl⟩
  · have hsame : at_size_check localtime env g = g := by
      unfold at_size_check
      rw [shift_rotate_no_rotation localtime env g hrot]
      unfold rotates at hrot
      unfold shift_open
      have : ¬ g.s_logfp = none := fun h => hrot (Or.inl h)
      simp only [this, if_false]
    rw [hsame]
    unfold rotates at hrot
    have hopen : g.s_logfp ≠ none := fun h => hrot (Or.inl h)
    obtain ⟨h0, hle⟩ := hprior hopen
    have hint : ¬ interval_days0 env g > 0 := fun h => hrot (Or.inr h)
    rw [interval_days0_eq_bucket_diff env g h0] at hint
    unfold bucket_diff at hint
    have := tdiv_day_mono _ _ hle
    exact ⟨h0, by omega⟩

theorem shift_logfile_same_bucket (K : Consts) (localtime : Int → Tm) (env2 : Env) (g1 : State)
    (fp : FILE) (hfp : g1.s_logfp = some fp)
    (hb : env2.time.tdiv 86400 = g1.s_last_logfile_ts.tdiv 86400)
    (hsize : env2.ftell ≤ K.MAX_LOG_FILESIZE) :
    shift_logfile K localtime env2 g1 = g1 := by
  have hint : interval_days0 env2 g1 ≤ 0 := by
    unfold interval_days0 SECONDS_PER_DAY
    split
    · exact le_refl _
    · omega
  unfold shift_logfile
  rw [shift_rotate_sameday localtime env2 g1 fp hfp hint]
  have h2 : shift_open localtime env2 g1 = g1 := by
    unfold shift_open
    simp [hfp]
  rw [h2]
  unfold shift_rewrite
  have : ¬ env2.ftell > K.MAX_LOG_FILESIZE := by omega
  simp [this]

theorem run_shift_logfile_same_bucket (K : Consts) (localtime : Int → Tm) (g1 : State)
    (fp : FILE) (hfp : g1.s_logfp = some fp) (envs : List Env)
    (h : ∀ e ∈ envs, e.time.tdiv 86400 = g1.s_last_logfile_ts.tdiv 86400 ∧
      e.ftell ≤ K.MAX_LOG_FILESIZE) :
    run_shift_logfile K localtime g1 envs = g1 := by
  induction envs with
  | nil => rfl
  | cons e es ih =>
    unfold run_shift_logfile
    rw [List.foldl_cons,
      shift_logfile_same_bucket K localtime e g1 fp hfp (h e (List.mem_cons_self _ _)).1
        (h e (List.mem_cons_self _ _)).2]
    exact ih (fun x hx => h x (List.mem_cons_of_mem _ hx))

/-- The events of a call that finds a stream open and the day bucket
advanced, up to the size check and after it. -/
theorem shift_logfile_new_day (K : Consts) (localtime : Int → Tm) (env2 : Env) (g1 : State)
    (fp : FILE) (hfp : g1.s_logfp = some fp) (h0 : g1.s_last_logfile_ts ≠ 0)
    (hb : bucket_diff env2 g1 > 0) :
    new_events g1 (at_size_check localtime env2 g1) =
      Event.fclose fp.path ::
        ((sweep_paths localtime env2 (bucket_diff env2 g1) g1).map Event.remove ++
          [Event.fopen (ts_logfile localtime g1.s_logfile env2.time 256) Mode.a env2.fopen_a]) ∧
    (shift_logfile K localtime env2 g1).s_last_logfile_ts = env2.time ∧
    (new_events (at_size_check localtime env2 g1) (shift_logfile K localtime env2 g1) = [] ∨
     new_events (at_size_check localtime env2 g1) (shift_logfile K localtime env2 g1) =
      [Event.fclose (ts_logfile localtime g1.s_logfile env2.time 256),
       Event.fopen (ts_logfile localtime g1.s_logfile env2.time 256) Mode.w env2.fopen_w]) := by
  have hint := interval_days0_eq_bucket_diff env2 g1 h0
  have hrot : rotates env2 g1 := Or.inr (by rw [hint]; exact hb)
  have hnone := shift_rotate_s_logfp localtime env2 g1 hrot
  have hcfg := (shift_rotate_sameConfig localtime env2 g1).2.2.1
  have hsi : sweep_interval env2 g1 = bucket_diff env2 g1 := by
    unfold sweep_interval
    simp [hfp, hint]
  have htr : (shift_rotate localtime env2 g1).trace = g1.trace ++ (Event.fclose fp.path ::
      (sweep_paths localtime env2 (bucket_diff env2 g1) g1).map Event.remove) := by
    rw [shift_rotate_eq_sweep localtime env2 g1 hrot, sweep_eq, hsi, sweep_paths_c_fclose]
    simp [c_fclose, hfp]
  have hsc : (at_size_check localtime env2 g1).trace = g1.trace ++ (Event.fclose fp.path ::
      ((sweep_paths localtime env2 (bucket_diff env2 g1) g1).map Event.remove ++
        [Event.fopen (ts_logfile localtime g1.s_logfile env2.time 256) Mode.a env2.fopen_a])) := by
    unfold at_size_check shift_open c_fopen
    cases ha : env2.fopen_a <;> simp [hnone, htr, hcfg]
  have hcur : (at_size_check localtime env2 g1).s_cur_logfile
      = ts_logfile localtime g1.s_logfile env2.time 256 := by
    unfold at_size_check shift_open c_fopen
    cases ha : env2.fopen_a <;> simp [hnone, hcfg]
  have hts : (at_size_check localtime env2 g1).s_last_logfile_ts = env2.time := by
    unfold at_size_check shift_open
    simp only [hnone, if_true]
  have hpath : ∀ fp2, (at_size_check localtime env2 g1).s_logfp = some fp2 →
      fp2.path = ts_logfile localtime g1.s_logfile env2.time 256 := by
    intro fp2 h2
    unfold at_size_check shift_open c_fopen at h2
    cases ha : env2.fopen_a <;> simp [hnone, hcfg, ha] at h2
    rw [← h2]
  have hsl : shift_logfile K localtime env2 g1
      = shift_rewrite K env2 (at_size_check localtime env2 g1) := rfl
  refine ⟨new_events_append _ _ _ hsc, ?_, ?_⟩
  · rw [hsl, ← hts]
    unfold shift_rewrite
    split
    · unfold c_fopen c_fclose
      split <;> split <;> rfl
    · rfl
  · rw [hsl]
    unfold shift_rewrite
    split
    · rename_i hc
      right
      obtain ⟨fp2, hfp2⟩ := Option.ne_none_iff_exists'.mp hc.1
      apply new_events_append
      unfold c_fopen c_fclose
      cases hw : env2.fopen_w <;> simp [hfp2, hcur, hpath fp2 hfp2]
    · left
      exact new_events_append _ _ [] (by simp)

/-- C17 (exactly one rotation per day boundary). Let a call of `shift_logfile`
at time `t` leave a stream open, the clock not showing 0 and not having run
backwards since an already open stream was opened. Then any number of later
calls at times in the day bucket of `t` that find the position at most
`MAX_LOG_FILESIZE` leave the whole state as it is: no close, no removal, no
open, same stream and same name. The first later call at a time `t2` in a
later day bucket closes the old stream once, sweeps, and calls `fopen` in
mode "a" once, on the name of `t2`; these are all its events up to the size
check, which adds either nothing or the reopening of that new stream; the
last-rotation timestamp is `t2` afterwards. -/
theorem one_rotation_per_day (K : Consts) (localtime : Int → Tm) (env : Env) (g g1 : State)
    (fp : FILE) (ht : env.time ≠ 0)
    (hprior : g.s_logfp ≠ none → g.s_last_logfile_ts ≠ 0 ∧ g.s_last_logfile_ts ≤ env.time)
    (hg1 : g1 = shift_logfile K localtime env g) (hfp : g1.s_logfp = some fp) :
    (∀ envs : List Env,
      (∀ e ∈ envs, e.time.tdiv 86400 = env.time.tdiv 86400 ∧ e.ftell ≤ K.MAX_LOG_FILESIZE) →
      run_shift_logfile K localtime g1 envs = g1) ∧
    (∀ (envs : List Env) (env2 : Env),
      (∀ e ∈ envs, e.time.tdiv 86400 = env.time.tdiv 86400 ∧ e.ftell ≤ K.MAX_LOG_FILESIZE) →
      env2.time.tdiv 86400 > env.time.tdiv 86400 →
      new_events g1 (at_size_check localtime env2 (run_shift_logfile K localtime g1 envs)) =
        Event.fclose fp.path ::
          ((sweep_paths localtime env2 (bucket_diff env2 g1) g1).map Event.remove ++
            [Event.fopen (ts_logfile localtime g1.s_logfile env2.time 256) Mode.a
              env2.fopen_a]) ∧
      (shift_logfile K localtime env2 (run_shift_logfile K localtime g1 envs)).s_last_logfile_ts
        = env2.time ∧
      (new_events (at_size_check localtime env2 (run_shift_logfile K localtime g1 envs))
          (shift_logfile K localtime env2 (run_shift_logfile K localtime g1 envs)) = [] ∨
       new_events (at_size_check localtime env2 (run_shift_logfile K localtime g1 envs))
          (shift_logfile K localtime env2 (run_shift_logfile K localtime g1 envs)) =
        [Event.fclose (ts_logfile localtime g1.s_logfile env2.time 256),
         Event.fopen (ts_logfile localtime g1.s_logfile env2.time 256) Mode.w
           env2.fopen_w])) := by
  obtain ⟨h0, hbucket⟩ := shift_logfile_last_ts K localtime env g ht hprior
  rw [← hg1] at h0 hbucket
  have hrun : ∀ envs : List Env,
      (∀ e ∈ envs, e.time.tdiv 86400 = env.time.tdiv 86400 ∧ e.ftell ≤ K.MAX_LOG_FILESIZE) →
      run_shift_logfile K localtime g1 envs = g1 := by
    intro envs h
    apply run_shift_logfile_same_bucket K localtime g1 fp hfp
    intro e he
    exact ⟨by rw [hbucket]; exact (h e he).1, (h e he).2⟩
  refine ⟨hrun, ?_⟩
  intro envs env2 h hlater
  rw [hrun envs h]
  apply shift_logfile_new_day K localtime env2 g1 fp hfp h0
  unfold bucket_diff
  omega

/-- Witness for C17: a stream opened on 2023-11-14 at 22:13:20 UTC, two more
calls the same evening, and a call one day later. -/
theorem one_rotation_per_day_witness :
    run_shift_logfile hlog_h_sample (localtime_fixed 0)
        (shift_logfile hlog_h_sample (localtime_fixed 0) (env_sample 1700000000 0) g_app)
        [env_sample 1700000060 0, env_sample 1700003600 5]
      = shift_logfile hlog_h_sample (localtime_fixed 0) (env_sample 1700000000 0) g_app ∧
    (shift_logfile hlog_h_sample (localtime_fixed 0) (env_sample 1700086400 0)
      (run_shift_logfile hlog_h_sample (localtime_fixed 0)
        (shift_logfile hlog_h_sample (localtime_fixed 0) (env_sample 1700000000 0) g_app)
        [env_sample 1700000060 0, env_sample 1700003600 5])).s_last_logfile_ts = 1700086400 := by
  have h := one_rotation_per_day hlog_h_sample (localtime_fixed 0) (env_sample 1700000000 0)
    g_app (shift_logfile hlog_h_sample (localtime_fixed 0) (env_sample 1700000000 0) g_app)
    ⟨"app-2023-11-14.log".toList, Mode.a⟩ (by decide) (fun h => absurd rfl h) rfl (by decide)
  have hsame : ∀ e ∈ [env_sample 1700000060 0, env_sample 1700003600 5],
      e.time.tdiv 86400 = (env_sample 1700000000 0).time.tdiv 86400 ∧
      e.ftell ≤ hlog_h_sample.MAX_LOG_FILESIZE := by
    intro e he
    simp only [List.mem_cons, List.mem_singleton, List.not_mem_nil, or_false] at he
    rcases he with rfl | rfl <;> decide
  exact ⟨h.1 _ hsame, (h.2 _ (env_sample 1700086400 0) hsame (by decide)).2.1⟩

/-! ## C18: lazy creation of the mutex -/

theorem mutex_inits_append (a b : List Event) :
    mutex_inits (a ++ b) = mutex_inits a + mutex_inits b := by
  simp [mutex_inits, List.count_append]

theorem mutex_inits_file_events (evs : List Event) (h : ∀ e ∈ evs, is_file_event e = true) :
    mutex_inits evs = 0 := by
  unfold mutex_inits
  rw [List.count_eq_zero]
  intro hmem
  have := h _ hmem
  simp [is_file_event] at this

theorem mutex_inits_fileOnly (g g2 : State) (h : FileOnly g g2) :
    mutex_inits g2.trace = mutex_inits g.trace := by
  obtain ⟨evs, ht, hf⟩ := h
  rw [ht, mutex_inits_append, mutex_inits_file_events evs hf]
  rfl

theorem hlog_render_s_initialized (K : Consts) (g : State) (pcolor plevel : CStr)
    (now : datetime_t) (msg : CStr) :
    (hlog_render K g pcolor plevel now msg).1.s_initialized = g.s_initialized := by
  unfold hlog_render
  split <;> rfl

theorem call_logger_s_initialized (K : Consts) (localtime : Int → Tm) (env : Env) (g : State)
    (buf : CStr) (len : Int) :
    (call_logger K localtime env g buf len).s_initialized = g.s_initialized := by
  unfold call_logger
  split
  · rfl
  · rfl
  · exact (file_logger_sameConfig K localtime env g buf len).1
  · rfl

theorem hlog_render_mutex_inits (K : Consts) (g : State) (pcolor plevel : CStr)
    (now : datetime_t) (msg : CStr) :
    mutex_inits (hlog_render K g pcolor plevel now msg).1.trace = mutex_inits g.trace := by
  rw [hlog_render_trace]
  cases g.s_logcolor <;> simp [mutex_inits_append, mutex_inits]

/-- A call of `hlog_printf` that passes the filter creates the mutex exactly
when `s_initialized` is not set, and sets `s_initialized`. -/
theorem hlog_printf_pass_init (K : Consts) (localtime : Int → Tm) (env : Env) (g : State)
    (level : Int) (msg : CStr) (h : g.s_loglevel ≤ level) :
    (hlog_printf K localtime env g level msg).1.s_initialized = true ∧
    mutex_inits (hlog_printf K localtime env g level msg).1.trace =
      mutex_inits g.trace + (if g.s_initialized then 0 else 1) := by
  have hn : ¬ level < g.s_loglevel := by omega
  constructor
  · simp only [hlog_printf, hn, if_false, State.emit]
    rw [call_logger_s_initialized]
    simp only [hlog_render_s_initialized]
    unfold mutex_once
    split
    · assumption
    · rfl
  · obtain ⟨r, fevs, hr, _, _, hf, ht⟩ := hlog_printf_pass K localtime env g level msg h
    rw [ht, hr]
    simp only [mutex_inits_append, mutex_inits_file_events fevs hf, hlog_render_mutex_inits]
    rw [mutex_once_trace]
    cases g.s_initialized <;> simp [mutex_inits_append, mutex_inits]

theorem hlog_fflush_init (K : Consts) (localtime : Int → Tm) (env : Env) (g : State) :
    (hlog_fflush K localtime env g).s_initialized = g.s_initialized ∧
    mutex_inits (hlog_fflush K localtime env g).trace = mutex_inits g.trace := by
  have hcfg := (shift_logfile_sameConfig K localtime env (g.emit Event.hmutex_lock)).1
  have hfo := mutex_inits_fileOnly _ _
    (shift_logfile_fileOnly K localtime env (g.emit Event.hmutex_lock))
  unfold hlog_fflush
  constructor
  · simp only [State.emit] at hcfg ⊢
    split <;> exact hcfg
  · simp only [State.emit] at hfo ⊢
    split <;> simp [mutex_inits_append, hfo] <;> simp [mutex_inits]

theorem hlog_set_file_frame (g : State) (logfile : Option CStr) :
    (hlog_set_file g logfile).1.s_initialized = g.s_initialized ∧
    (hlog_set_file g logfile).1.trace = g.trace := by
  cases logfile with
  | none => exact ⟨rfl, rfl⟩
  | some p =>
    by_cases hp : p.length = 0
    · simp [hlog_set_file, hp]
    · cases hs : strrchr (p.take 256) '.' with
      | none => simp [hlog_set_file, hp, hs]
      | some i =>
        simp only [hlog_set_file, hp, hs, if_false]
        split <;> exact ⟨rfl, rfl⟩

/-- A call that does not pass the filter leaves `s_initialized` and the number
of `hmutex_init` calls as they are. -/
theorem api_step_no_pass (K : Consts) (localtime : Int → Tm) (g : State) (c : Api)
    (h : passes g c = false) :
    (api_step K localtime g c).s_initialized = g.s_initialized ∧
    mutex_inits (api_step K localtime g c).trace = mutex_inits g.trace := by
  cases c with
  | hlog_set_logger fn => exact ⟨rfl, rfl⟩
  | hlog_set_level level => exact ⟨rfl, rfl⟩
  | hlog_set_remain_days days => exact ⟨rfl, rfl⟩
  | hlog_enable_color on_ => exact ⟨rfl, rfl⟩
  | hlog_set_fflush on_ => exact ⟨rfl, rfl⟩
  | stdout_logger buf len => exact ⟨rfl, rfl⟩
  | stderr_logger buf len => exact ⟨rfl, rfl⟩
  | hlog_set_file logfile =>
    have := hlog_set_file_frame g logfile
    exact ⟨this.1, by simp only [api_step]; rw [this.2]⟩
  | hlog_printf env level msg =>
    simp only [passes, decide_eq_false_iff_not] at h
    have hlt : level < g.s_loglevel := by omega
    simp [api_step, hlog_printf, hlt]
  | file_logger env buf len =>
    exact ⟨(file_logger_sameConfig K localtime env g buf len).1,
      mutex_inits_fileOnly _ _ (file_logger_fileOnly K localtime env g buf len)⟩
  | hlog_fflush env => exact hlog_fflush_init K localtime env g

theorem api_step_pass (K : Consts) (localtime : Int → Tm) (g : State) (c : Api)
    (h : passes g c = true) :
    (api_step K localtime g c).s_initialized = true ∧
    mutex_inits (api_step K localtime g c).trace =
      mutex_inits g.trace + (if g.s_initialized then 0 else 1) := by
  cases c with
  | hlog_printf env level msg =>
    simp only [passes, decide_eq_true_eq] at h
    exact hlog_printf_pass_init K localtime env g level msg h
  | _ => simp [passes] at h

theorem api_run_none_pass (K : Consts) (localtime : Int → Tm) (calls : List Api) :
    ∀ g : State, none_pass K localtime g calls = true →
      (api_run K localtime g calls).s_initialized = g.s_initialized ∧
      mutex_inits (api_run K localtime g calls).trace = mutex_inits g.trace := by
  induction calls with
  | nil => intro g _; exact ⟨rfl, rfl⟩
  | cons c cs ih =>
    intro g h
    simp only [none_pass, Bool.and_eq_true, Bool.not_eq_true'] at h
    obtain ⟨h1, h2⟩ := api_step_no_pass K localtime g c h.1
    obtain ⟨h3, h4⟩ := ih (api_step K localtime g c) h.2
    exact ⟨by rw [← h1, ← h3]; rfl, by rw [← h2, ← h4]; rfl⟩

theorem api_run_initialized (K : Consts) (localtime : Int → Tm) (calls : List Api) :
    ∀ g : State, g.s_initialized = true →
      (api_run K localtime g calls).s_initialized = true ∧
      mutex_inits (api_run K localtime g calls).trace = mutex_inits g.trace := by
  induction calls with
  | nil => intro g h; exact ⟨h, rfl⟩
  | cons c cs ih =>
    intro g h
    have hstep : (api_step K localtime g c).s_initialized = true ∧
        mutex_inits (api_step K localtime g c).trace = mutex_inits g.trace := by
      cases hp : passes g c
      · have := api_step_no_pass K localtime g c hp
        exact ⟨this.1.trans h, this.2⟩
      · have := api_step_pass K localtime g c hp
        rw [h] at this
        simpa using this
    obtain ⟨h3, h4⟩ := ih (api_step K localtime g c) hstep.1
    exact ⟨h3, by rw [← hstep.2, ← h4]; rfl⟩

/-- C18 (lazy single initialization of the lock). In every sequence of calls
of the public interface made one after the other by a fresh process: as long
as no call passes the level filter (the threshold taken at the time of each
call), `hmutex_init` has not been called; the first call that passes (a call
of `hlog_printf` with `level >= s_loglevel`) calls it once; and after any
further calls it still has been called exactly once. -/
theorem mutex_initialized_once (K : Consts) (localtime : Int → Tm) (disk : Disk) :
    (∀ calls : List Api, none_pass K localtime (State.initial K disk) calls = true →
      mutex_inits (api_run K localtime (State.initial K disk) calls).trace = 0) ∧
    (∀ (pre : List Api) (c : Api) (post : List Api),
      none_pass K localtime (State.initial K disk) pre = true →
      passes (api_run K localtime (State.initial K disk) pre) c = true →
      mutex_inits (api_run K localtime (State.initial K disk) pre).trace = 0 ∧
      mutex_inits (api_run K localtime (State.initial K disk) (pre ++ [c])).trace = 1 ∧
      mutex_inits (api_run K localtime (State.initial K disk) (pre ++ c :: post)).trace = 1) := by
  have hnone : ∀ calls : List Api, none_pass K localtime (State.initial K disk) calls = true →
      (api_run K localtime (State.initial K disk) calls).s_initialized = false ∧
      mutex_inits (api_run K localtime (State.initial K disk) calls).trace = 0 := by
    intro calls h
    have := api_run_none_pass K localtime calls (State.initial K disk) h
    exact ⟨this.1, this.2⟩
  refine ⟨fun calls h => (hnone calls h).2, ?_⟩
  intro pre c post hpre hc
  obtain ⟨hi, hz⟩ := hnone pre hpre
  have hstep := api_step_pass K localtime _ c hc
  rw [hi, hz] at hstep
  have h1 : api_run K localtime (State.initial K disk) (pre ++ [c])
      = api_step K localtime (api_run K localtime (State.initial K disk) pre) c := by
    simp [api_run, List.foldl_append]
  have h2 : api_run K localtime (State.initial K disk) (pre ++ c :: post)
      = api_run K localtime
          (api_step K localtime (api_run K localtime (State.initial K disk) pre) c) post := by
    simp [api_run, List.foldl_append]
  refine ⟨hz, ?_, ?_⟩
  · rw [h1]
    simpa using hstep.2
  · rw [h2, (api_run_initialized K localtime post _ hstep.1).2]
    simpa using hstep.2

/-- Witness for C18 with the threshold set to WARN: a DEBUG call does not
create the mutex, the ERROR call that follows creates it, and a second ERROR
call does not create it again. -/
theorem mutex_initialized_once_witness :
    mutex_inits (api_run hlog_h_sample (localtime_fixed 0) (State.initial hlog_h_sample
      (fun _ => none))
      [Api.hlog_set_level 3, Api.hlog_printf (env_sample 1700000000 0) 1 "a".toList]).trace = 0 ∧
    mutex_inits (api_run hlog_h_sample (localtime_fixed 0) (State.initial hlog_h_sample
      (fun _ => none))
      ([Api.hlog_set_level 3, Api.hlog_printf (env_sample 1700000000 0) 1 "a".toList] ++
        Api.hlog_printf (env_sample 1700000001 0) 4 "b".toList ::
        [Api.hlog_printf (env_sample 1700000002 0) 4 "c".toList])).trace = 1 := by
  have h := mutex_initialized_once hlog_h_sample (localtime_fixed 0) (fun _ => none)
  exact ⟨h.1 _ (by decide), (h.2 _ _ _ (by decide) (by decide)).2.2⟩

/-! ## C19: the frame of `shift_logfile` -/

theorem c_fopen_disk (g : State) (ok : Bool) (p : CStr) (m : Mode) (q : CStr) (hq : q ≠ p) :
    (c_fopen g ok p m).disk q = g.disk q := by
  unfold c_fopen
  cases ok <;> simp [Disk.fopen, hq]

theorem c_fclose_disk (g : State) : (c_fclose g).disk = g.disk := by
  unfold c_fclose
  cases g.s_logfp <;> rfl

theorem shift_open_disk (localtime : Int → Tm) (env : Env) (g : State) (q : CStr)
    (hq : q ≠ (shift_open localtime env g).s_cur_logfile) :
    (shift_open localtime env g).disk q = g.disk q := by
  by_cases hnone : g.s_logfp = none
  · have hcur : (shift_open localtime env g).s_cur_logfile
        = ts_logfile localtime g.s_logfile env.time 256 := by
      unfold shift_open c_fopen
      cases env.fopen_a <;> simp [hnone]
    rw [hcur] at hq
    unfold shift_open c_fopen
    cases env.fopen_a <;> simp [hnone, Disk.fopen, hq]
  · unfold shift_open
    simp [hnone]

theorem shift_rewrite_cur (K : Consts) (env : Env) (g : State) :
    (shift_rewrite K env g).s_cur_logfile = g.s_cur_logfile := by
  unfold shift_rewrite
  split
  · unfold c_fopen c_fclose
    split <;> split <;> rfl
  · rfl

theorem shift_rewrite_disk (K : Consts) (env : Env) (g : State) (q : CStr)
    (hq : q ≠ g.s_cur_logfile) : (shift_rewrite K env g).disk q = g.disk q := by
  unfold shift_rewrite
  split
  · rw [c_fopen_disk _ _ _ _ q hq, c_fclose_disk]
  · rfl

theorem shift_rotate_disk (localtime : Int → Tm) (env : Env) (g : State) (q : CStr)
    (hrot : rotates env g) :
    (shift_rotate localtime env g).disk q =
      if q ∈ sweep_paths localtime env (sweep_interval env g) g then none else g.disk q := by
  rw [shift_rotate_eq_sweep localtime env g hrot, sweep_disk, sweep_paths_c_fclose,
    c_fclose_disk]

theorem shift_logfile_open_attempt (K : Consts) (localtime : Int → Tm) (env : Env) (g : State)
    (hrot : rotates env g) :
    Event.fopen (ts_logfile localtime g.s_logfile env.time 256) Mode.a env.fopen_a
      ∈ new_events g (shift_logfile K localtime env g) := by
  have hnone := shift_rotate_s_logfp localtime env g hrot
  obtain ⟨e1, ht1, _⟩ := shift_rotate_fileOnly localtime env g
  have hcfg := (shift_rotate_sameConfig localtime env g).2.2.1
  have hopen : (shift_open localtime env (shift_rotate localtime env g)).trace =
      g.trace ++ (e1 ++ [Event.fopen (ts_logfile localtime g.s_logfile env.time 256) Mode.a
        env.fopen_a]) := by
    unfold shift_open c_fopen
    cases ha : env.fopen_a <;> simp [hnone, ht1, hcfg]
  obtain ⟨e3, ht3, _⟩ := shift_rewrite_fileOnly K env
    (shift_open localtime env (shift_rotate localtime env g))
  have hsl : (shift_logfile K localtime env g).trace =
      g.trace ++ (e1 ++ [Event.fopen (ts_logfile localtime g.s_logfile env.time 256) Mode.a
        env.fopen_a] ++ e3) := by
    unfold shift_logfile
    rw [ht3, hopen]
    simp
  rw [new_events_append g _ _ hsl]
  simp

theorem shift_logfile_opened (K : Consts) (localtime : Int → Tm) (env : Env) (g : State)
    (hrot : rotates env g) (ha : env.fopen_a = true)
    (hw : env.ftell > K.MAX_LOG_FILESIZE → env.fopen_w = true) :
    (∃ m, (shift_logfile K localtime env g).s_logfp
      = some ⟨ts_logfile localtime g.s_logfile env.time 256, m⟩) ∧
    (shift_logfile K localtime env g).disk (ts_logfile localtime g.s_logfile env.time 256)
      ≠ none := by
  have hnone := shift_rotate_s_logfp localtime env g hrot
  have hcfg := (shift_rotate_sameConfig localtime env g).2.2.1
  by_cases hbig : env.ftell > K.MAX_LOG_FILESIZE
  · have hw2 := hw hbig
    simp only [shift_logfile, shift_rewrite, shift_open, c_fopen, c_fclose, hnone, ha, hw2, hbig,
      hcfg, Disk.fopen]
    exact ⟨⟨Mode.w, by simp⟩, by simp [Disk.fopen]⟩
  · simp only [shift_logfile, shift_rewrite, shift_open, c_fopen, c_fclose, hnone, ha, hbig,
      hcfg, Disk.fopen]
    exact ⟨⟨Mode.a, by simp⟩, by simp [Disk.fopen]⟩

/-- C19 (cleanup is a no-op for missing files and touches nothing else, P7).
For every state of the disk and every call of `shift_logfile`: a path that is
neither removed by the call nor the current file name on return (the name of
today when the call rotates) has the same existence and content as before.
When the call rotates and none of the targets of the sweep exists, the sweep
leaves the whole disk as it is, and the call calls `fopen` in mode "a" on the
name of today; when the opens of the call succeed, the stream it returns is
open on that name and the file exists. -/
theorem shift_logfile_frame (K : Consts) (localtime : Int → Tm) (env : Env) (g : State) :
    (∀ q : CStr, q ∉ removed_paths (new_events g (shift_logfile K localtime env g)) →
      q ≠ (shift_logfile K localtime env g).s_cur_logfile →
      (shift_logfile K localtime env g).disk q = g.disk q) ∧
    (rotates env g →
      (shift_logfile K localtime env g).s_cur_logfile
        = ts_logfile localtime g.s_logfile env.time 256 ∧
      ((∀ p ∈ sweep_paths localtime env (sweep_interval env g) g, g.disk p = none) →
        (shift_rotate localtime env g).disk = g.disk ∧
        Event.fopen (ts_logfile localtime g.s_logfile env.time 256) Mode.a env.fopen_a
          ∈ new_events g (shift_logfile K localtime env g) ∧
        (env.fopen_a = true → (env.ftell > K.MAX_LOG_FILESIZE → env.fopen_w = true) →
          (∃ m, (shift_logfile K localtime env g).s_logfp
            = some ⟨ts_logfile localtime g.s_logfile env.time 256, m⟩) ∧
          (shift_logfile K localtime env g).disk (ts_logfile localtime g.s_logfile env.time 256)
            ≠ none))) := by
  have hcur : (shift_logfile K localtime env g).s_cur_logfile
      = (at_size_check localtime env g).s_cur_logfile := shift_rewrite_cur K env _
  constructor
  · intro q hrem hq
    rw [hcur] at hq
    have h1 : (shift_logfile K localtime env g).disk q
        = (at_size_check localtime env g).disk q := shift_rewrite_disk K env _ q hq
    have h2 : (at_size_check localtime env g).disk q
        = (shift_rotate localtime env g).disk q := shift_open_disk localtime env _ q hq
    rw [h1, h2]
    by_cases hrot : rotates env g
    · rw [(shift_logfile_removed K localtime env g).1 hrot] at hrem
      rw [shift_rotate_disk localtime env g q hrot, if_neg hrem]
    · rw [shift_rotate_no_rotation localtime env g hrot]
  · intro hrot
    have hnone := shift_rotate_s_logfp localtime env g hrot
    have hcfg := (shift_rotate_sameConfig localtime env g).2.2.1
    refine ⟨?_, ?_⟩
    · rw [hcur]
      unfold at_size_check shift_open
      simp only [hnone, if_true, hcfg]
      unfold c_fopen
      split <;> rfl
    · intro hmissing
      refine ⟨?_, shift_logfile_open_attempt K localtime env g hrot,
        fun ha hw => shift_logfile_opened K localtime env g hrot ha hw⟩
      funext q
      rw [shift_rotate_disk localtime env g q hrot]
      by_cases hq : q ∈ sweep_paths localtime env (sweep_interval env g) g
      · rw [if_pos hq, hmissing q hq]
      · rw [if_neg hq]

/-- Witness for C19: a restart on 2023-11-14 with base "app" and an unrelated
file on disk. The unrelated file "other.txt" keeps its content, none of the
thirty targets exists, and the call returns a stream on
"app-2023-11-14.log". -/
theorem shift_logfile_frame_witness :
    (shift_logfile hlog_h_sample (localtime_fixed 0) (env_sample 1700000000 0)
      g_other).disk "other.txt".toList = some "kept".toList ∧
    ∃ m, (shift_logfile hlog_h_sample (localtime_fixed 0) (env_sample 1700000000 0)
      g_other).s_logfp = some ⟨"app-2023-11-14.log".toList, m⟩ := by
  have h := shift_logfile_frame hlog_h_sample (localtime_fixed 0) (env_sample 1700000000 0)
    g_other
  have hrot : rotates (env_sample 1700000000 0) g_other := Or.inl rfl
  have hname : ts_logfile (localtime_fixed 0) g_other.s_logfile
      (env_sample 1700000000 0).time 256 = "app-2023-11-14.log".toList := by decide
  constructor
  · rw [h.1 "other.txt".toList]
    · rfl
    · rw [(shift_logfile_removed hlog_h_sample (localtime_fixed 0) (env_sample 1700000000 0)
        g_other).1 hrot]
      decide
    · rw [(h.2 hrot).1, hname]
      decide
  · have h3 := ((h.2 hrot).2 (by decide)).2.2 rfl (fun _ => rfl)
    rw [hname] at h3
    exact h3.1

/-! ## C20: the lock and its creation -/

/-- C20, evaluated at a failing input: `hlog_fflush` as the first call of a
fresh process. `s_initialized` is 0, the first event of the call is
`hmutex_lock`, and `hmutex_init` is not called at all: the lock is taken
without having been created. -/
theorem hlog_fflush_locks_uncreated_mutex :
    (State.initial hlog_h_sample (fun _ => none)).s_initialized = false ∧
    (api_run hlog_h_sample (localtime_fixed 0) (State.initial hlog_h_sample (fun _ => none))
      [Api.hlog_fflush (env_sample 1700000000 0)]).trace.head? = some Event.hmutex_lock ∧
    mutex_inits (api_run hlog_h_sample (localtime_fixed 0)
      (State.initial hlog_h_sample (fun _ => none))
      [Api.hlog_fflush (env_sample 1700000000 0)]).trace = 0 ∧
    locks_initialized false (api_run hlog_h_sample (localtime_fixed 0)
      (State.initial hlog_h_sample (fun _ => none))
      [Api.hlog_fflush (env_sample 1700000000 0)]).trace = false := by
  refine ⟨rfl, by decide, by decide, by decide⟩

/-! ## The calendar of `civil_from_days` -/

theorem day_of_year_bounds (doe : Int) (h0 : 0 ≤ doe) (h1 : doe < 146097) :
    0 ≤ doe - (365 * ((doe - doe / 1460 + doe / 36524 - doe / 146096) / 365)
      + (doe - doe / 1460 + doe / 36524 - doe / 146096) / 365 / 4
      - (doe - doe / 1460 + doe / 36524 - doe / 146096) / 365 / 100) ∧
    doe - (365 * ((doe - doe / 1460 + doe / 36524 - doe / 146096) / 365)
      + (doe - doe / 1460 + doe / 36524 - doe / 146096) / 365 / 4
      - (doe - doe / 1460 + doe / 36524 - doe / 146096) / 365 / 100) ≤ 365 := by
  obtain ⟨c, hc⟩ : ∃ c, c = doe / 36524 := ⟨_, rfl⟩
  obtain ⟨d, hd⟩ : ∃ d, d = doe / 146096 := ⟨_, rfl⟩
  obtain ⟨y, hy⟩ : ∃ y, y = (doe - doe / 1460 + doe / 36524 - doe / 146096) / 365 := ⟨_, rfl⟩
  obtain ⟨g, hg⟩ : ∃ g, g = y / 100 := ⟨_, rfl⟩
  rw [← hy, ← hg]
  have hc2 : 0 ≤ c ∧ c ≤ 4 := by omega
  have hd2 : 0 ≤ d ∧ d ≤ 1 := by omega
  have hg2 : 0 ≤ g ∧ g ≤ 3 := by omega
  rw [← hc, ← hd] at hy
  obtain ⟨hc1, hc2⟩ := hc2
  obtain ⟨hd1, hd2⟩ := hd2
  obtain ⟨hg1, hg2⟩ := hg2
  interval_cases c <;> interval_cases d <;> interval_cases g <;> omega

/-- The quantities `civil_from_days` computes from a day number, with their
ranges: the 400-year era, the day and the year within the era, the day of the
year counted from 1 March, and the month counted from March. -/
theorem civil_from_days_fields (z : Int) :
    ∃ era doe yoe doy mp : Int,
      z + 719468 = era * 146097 + doe ∧ 0 ≤ doe ∧ doe < 146097 ∧
      0 ≤ yoe ∧ yoe ≤ 399 ∧
      doe = 365 * yoe + yoe / 4 - yoe / 100 + doy ∧ 0 ≤ doy ∧ doy ≤ 365 ∧
      0 ≤ mp ∧ mp ≤ 11 ∧
      mp = (5 * doy + 2) / 153 ∧
      (civil_from_days z).tm_mday = doy - (153 * mp + 2) / 5 + 1 ∧
      (civil_from_days z).tm_mon + 1 = (if mp < 10 then mp + 3 else mp - 9) ∧
      (civil_from_days z).tm_year + 1900 = yoe + era * 400 + (if mp < 10 then 0 else 1) := by
  obtain ⟨era, hera⟩ : ∃ era, era = (z + 719468) / 146097 := ⟨_, rfl⟩
  obtain ⟨doe, hdoe⟩ : ∃ doe, doe = z + 719468 - era * 146097 := ⟨_, rfl⟩
  obtain ⟨yoe, hyoe⟩ : ∃ yoe, yoe = (doe - doe / 1460 + doe / 36524 - doe / 146096) / 365 :=
    ⟨_, rfl⟩
  obtain ⟨doy, hdoy⟩ : ∃ doy, doy = doe - (365 * yoe + yoe / 4 - yoe / 100) := ⟨_, rfl⟩
  obtain ⟨mp, hmp⟩ : ∃ mp, mp = (5 * doy + 2) / 153 := ⟨_, rfl⟩
  have key : civil_from_days z =
      { tm_year := yoe + era * 400 + (if (if mp < 10 then mp + 3 else mp - 9) ≤ 2 then 1 else 0)
          - 1900,
        tm_mon := (if mp < 10 then mp + 3 else mp - 9) - 1,
        tm_mday := doy - (153 * mp + 2) / 5 + 1 } := by
    subst hmp hdoy hyoe hdoe hera; rfl
  have b1 : 0 ≤ doe ∧ doe < 146097 := by omega
  have b2 : 0 ≤ yoe ∧ yoe ≤ 399 := by omega
  have b3 : 0 ≤ doy ∧ doy ≤ 365 := by
    have := day_of_year_bounds doe b1.1 b1.2
    rw [← hyoe, ← hdoy] at this
    exact this
  have b4 : 0 ≤ mp ∧ mp ≤ 11 := by omega
  refine ⟨era, doe, yoe, doy, mp, by omega, b1.1, b1.2, b2.1, b2.2, by omega, b3.1, b3.2,
    b4.1, b4.2, hmp, by rw [key], by rw [key]; simp, ?_⟩
  rw [key]
  simp only
  split_ifs <;> omega

/-- The civil date determines the day number. -/
theorem civil_from_days_injective (z1 z2 : Int) (h : civil_from_days z1 = civil_from_days z2) :
    z1 = z2 := by
  obtain ⟨era1, doe1, yoe1, doy1, mp1, a1, a2, a3, a4, a5, a6, a7, a8, a9, a10, a11, a12, a13,
    a14⟩ := civil_from_days_fields z1
  obtain ⟨era2, doe2, yoe2, doy2, mp2, c1, c2, c3, c4, c5, c6, c7, c8, c9, c10, c11, c12, c13,
    c14⟩ := civil_from_days_fields z2
  rw [h] at a12 a13 a14
  have hmp : mp1 = mp2 := by
    rw [c13] at a13
    split_ifs at a13 <;> omega
  subst hmp
  have hdoy : doy1 = doy2 := by omega
  subst hdoy
  have hy : yoe1 + era1 * 400 = yoe2 + era2 * 400 := by
    rw [c14] at a14
    omega
  have hera : era1 = era2 := by omega
  subst hera
  have hyoe : yoe1 = yoe2 := by omega
  subst hyoe
  omega

/-- Month and day of `civil_from_days` are in range. -/
theorem civil_from_days_range (z : Int) :
    0 ≤ (civil_from_days z).tm_mon ∧ (civil_from_days z).tm_mon ≤ 11 ∧
    1 ≤ (civil_from_days z).tm_mday ∧ (civil_from_days z).tm_mday ≤ 31 := by
  obtain ⟨era, doe, yoe, doy, mp, a1, a2, a3, a4, a5, a6, a7, a8, a9, a10, a11, a12, a13, a14⟩ :=
    civil_from_days_fields z
  have hm : 0 ≤ (civil_from_days z).tm_mon ∧ (civil_from_days z).tm_mon ≤ 11 := by
    split_ifs at a13 <;> omega
  refine ⟨hm.1, hm.2, ?_, ?_⟩ <;> omega

/-! ## Distinct days have distinct names -/

theorem digitChar_value (k : Nat) (h : k < 10) : (Nat.digitChar k).toNat - 48 = k := by
  interval_cases k <;> rfl

theorem digitChar_ne_minus (k : Nat) (h : k < 10) : Nat.digitChar k ≠ '-' := by
  interval_cases k <;> decide

theorem digits_value_snoc (s : CStr) (c : Char) :
    digits_value (s ++ [c]) = 10 * digits_value s + (c.toNat - 48) := by
  simp [digits_value, List.foldl_append]

theorem digits_value_decimalAux (fuel : Nat) :
    ∀ n : Nat, n < fuel → digits_value (decimalAux fuel n) = n := by
  induction fuel with
  | zero => intro n h; omega
  | succ fuel ih =>
    intro n h
    unfold decimalAux
    by_cases h10 : n < 10
    · simp only [h10, if_true]
      have := digits_value_snoc [] (Nat.digitChar n)
      simp only [List.nil_append] at this
      rw [this, digitChar_value n h10]
      simp [digits_value]
    · simp only [h10, if_false]
      rw [digits_value_snoc, ih (n / 10) (by omega), digitChar_value (n % 10) (by omega)]
      omega

theorem digits_value_zeros (k : Nat) (s : CStr) :
    digits_value (List.replicate k '0' ++ s) = digits_value s := by
  induction k with
  | zero => simp
  | succ k ih =>
    have h0 : digits_value ('0' :: (List.replicate k '0' ++ s))
        = digits_value (List.replicate k '0' ++ s) := by
      simp [digits_value]
    rw [List.replicate_succ, List.cons_append, h0, ih]

theorem decimalAux_ne_minus (fuel : Nat) :
    ∀ (n : Nat) (c : Char), c ∈ decimalAux fuel n → c ≠ '-' := by
  induction fuel with
  | zero => intro n c h; simp [decimalAux] at h
  | succ fuel ih =>
    intro n c h
    unfold decimalAux at h
    by_cases h10 : n < 10
    · simp only [h10, if_true, List.mem_singleton] at h
      rw [h]
      exact digitChar_ne_minus n h10
    · simp only [h10, if_false, List.mem_append, List.mem_singleton] at h
      rcases h with h | h
      · exact ih _ _ h
      · rw [h]
        exact digitChar_ne_minus _ (by omega)

theorem printf_0d_nonneg_value (w : Nat) (n : Int) (h : 0 ≤ n) :
    digits_value (printf_0d w n) = n.toNat ∧ ∀ c ∈ printf_0d w n, c ≠ '-' := by
  unfold printf_0d
  have hn : ¬ n < 0 := by omega
  simp only [hn, if_false]
  refine ⟨?_, ?_⟩
  · rw [digits_value_zeros]
    exact digits_value_decimalAux _ _ (by omega)
  · intro c hc
    rcases List.mem_append.mp hc with h1 | h1
    · rw [(List.mem_replicate.mp h1).2]
      decide
    · exact decimalAux_ne_minus _ _ _ h1

/-- The conversion `%0wd` prints different integers differently. -/
theorem printf_0d_injective (w : Nat) (a b : Int) (h : printf_0d w a = printf_0d w b) :
    a = b := by
  by_cases ha : a < 0
  · by_cases hb : b < 0
    · unfold printf_0d at h
      simp only [ha, hb, if_true, List.cons.injEq, true_and] at h
      have hv := congrArg digits_value h
      rw [digits_value_zeros, digits_value_zeros] at hv
      unfold decimal at hv
      rw [digits_value_decimalAux _ _ (by omega), digits_value_decimalAux _ _ (by omega)] at hv
      omega
    · exfalso
      have hm : '-' ∈ printf_0d w a := by
        unfold printf_0d
        simp [ha]
      rw [h] at hm
      exact (printf_0d_nonneg_value w b (by omega)).2 _ hm rfl
  · by_cases hb : b < 0
    · exfalso
      have hm : '-' ∈ printf_0d w b := by
        unfold printf_0d
        simp [hb]
      rw [← h] at hm
      exact (printf_0d_nonneg_value w a (by omega)).2 _ hm rfl
    · have h1 := (printf_0d_nonneg_value w a (by omega)).1
      have h2 := (printf_0d_nonneg_value w b (by omega)).1
      rw [h, h2] at h1
      omega

theorem printf_0d_two_length (n : Int) (h0 : 0 ≤ n) (h1 : n < 100) :
    (printf_0d 2 n).length = 2 := by
  rw [printf_0d_eq_zero_padded]
  exact zero_padded_length 2 n (by decide) h0 (by simpa using h1)

/-- The format of `ts_logfile` gives different dates different names, for
months and days in their calendar ranges. -/
theorem ts_logfile_fmt_injective (base : CStr) (a b : Tm)
    (ha : 0 ≤ a.tm_mon ∧ a.tm_mon ≤ 11 ∧ 1 ≤ a.tm_mday ∧ a.tm_mday ≤ 31)
    (hb : 0 ≤ b.tm_mon ∧ b.tm_mon ≤ 11 ∧ 1 ≤ b.tm_mday ∧ b.tm_mday ≤ 31)
    (h : ts_logfile_fmt base a = ts_logfile_fmt base b) : a = b := by
  unfold ts_logfile_fmt at h
  simp only [List.append_assoc] at h
  have h1 := List.append_cancel_left h
  have lam := printf_0d_two_length (a.tm_mon + 1) (by omega) (by omega)
  have lad := printf_0d_two_length a.tm_mday (by omega) (by omega)
  have lbm := printf_0d_two_length (b.tm_mon + 1) (by omega) (by omega)
  have lbd := printf_0d_two_length b.tm_mday (by omega) (by omega)
  have h2 := List.append_inj' h1 (by simp [lam, lad, lbm, lbd])
  have hy := printf_0d_injective 4 _ _ (List.cons.inj h2.1).2
  have h4 := List.append_inj h2.2 (by simp [lam, lbm])
  have hm := printf_0d_injective 2 _ _ (List.cons.inj h4.1).2
  have h6 := List.append_inj h4.2 (by simp [lad, lbd])
  have hd := printf_0d_injective 2 _ _ (List.cons.inj h6.1).2
  cases a
  cases b
  simp only [Tm.mk.injEq] at *
  omega

/-- In a zone given by its UTC offsets, two instants on different local days
have different file names, provided both names fit the buffer. -/
theorem ts_logfile_zone_ne (gmtoff : Int → Int) (base : CStr) (t1 t2 : Int)
    (hday : (t1 + gmtoff t1) / 86400 ≠ (t2 + gmtoff t2) / 86400)
    (h1 : (ts_logfile_fmt base (localtime_zone gmtoff t1)).length < 256)
    (h2 : (ts_logfile_fmt base (localtime_zone gmtoff t2)).length < 256) :
    ts_logfile (localtime_zone gmtoff) base t1 256
      ≠ ts_logfile (localtime_zone gmtoff) base t2 256 := by
  unfold ts_logfile snprintf_text
  rw [List.take_of_length_le (by omega), List.take_of_length_le (by omega)]
  intro h
  apply hday
  apply civil_from_days_injective
  exact ts_logfile_fmt_injective base _ _ (civil_from_days_range _) (civil_from_days_range _) h

/-! ## C11: the sweep and the file being written -/

/-- C11 fails as stated, in four ways: the name of today, which the call
goes on to open, is among the paths its sweep removes. In the first, third
and fourth case a file of today left by an earlier run is on disk, and after
a first call of `file_logger` it holds the new record only.

* `s_remain_days = 0`, base "app", 2023-11-14 (UTC): the range of the sweep
  ends at today.
* A base path of 255 characters, `s_remain_days = 1`: every daily name is cut
  to the base path, so the path removed for yesterday is the path of today.
* London on 2023-10-29, the day summer time ends, at 23:30 local time (epoch
  1698622200), `s_remain_days = 1`: the instant 86400 seconds earlier is
  00:30 of the same local day, so the name removed for one day back is
  "app-2023-10-29.log", the name of today.
* `s_remain_days = 49710`, 2023-11-14 14:00 UTC (epoch 1699970400): the
  `int` product 49710 * 86400 is -23296, so the sweep removes the name of the
  instant 23296 seconds after now, which is the name of today. -/
theorem sweep_removes_today :
    (ts_logfile (localtime_fixed 0) (hlog_set_remain_days g_restart 0).s_logfile 1700000000 256
      ∈ removed_paths (new_events (hlog_set_remain_days g_restart 0)
          (shift_logfile hlog_h_sample (localtime_fixed 0) (env_sample 1700000000 0)
            (hlog_set_remain_days g_restart 0))) ∧
     (hlog_set_remain_days g_restart 0).disk "app-2023-11-14.log".toList
      = some "earlier\n".toList ∧
     (file_logger hlog_h_sample (localtime_fixed 0) (env_sample 1700000000 0)
      (hlog_set_remain_days g_restart 0) "x".toList 1).disk "app-2023-11-14.log".toList
      = some "x\n".toList) ∧
    (g_long.s_remain_days = 1 ∧
     ts_logfile (localtime_fixed 0) g_long.s_logfile 1700000000 256
      ∈ removed_paths (new_events g_long
          (shift_logfile hlog_h_sample (localtime_fixed 0) (env_sample 1700000000 0) g_long))) ∧
    (g_restart_oct.s_remain_days = 1 ∧
     london_2023 (1698622200 - 86400) = 3600 ∧ london_2023 1698622200 = 0 ∧
     ts_logfile (localtime_zone london_2023) g_restart_oct.s_logfile 1698622200 256
      = "app-2023-10-29.log".toList ∧
     ts_logfile (localtime_zone london_2023) g_restart_oct.s_logfile (1698622200 - 86400) 256
      = "app-2023-10-29.log".toList ∧
     "app-2023-10-29.log".toList
      ∈ removed_paths (new_events g_restart_oct
          (shift_logfile hlog_h_sample (localtime_zone london_2023) (env_sample 1698622200 0)
            g_restart_oct)) ∧
     g_restart_oct.disk "app-2023-10-29.log".toList = some "earlier\n".toList ∧
     (file_logger hlog_h_sample (localtime_zone london_2023) (env_sample 1698622200 0)
      g_restart_oct "x".toList 1).disk "app-2023-10-29.log".toList = some "x\n".toList) ∧
    (int_mul 49710 SECONDS_PER_DAY = -23296 ∧
     ts_logfile (localtime_fixed 0) (hlog_set_remain_days g_restart 49710).s_logfile
      1699970400 256 = "app-2023-11-14.log".toList ∧
     removed_paths (new_events (hlog_set_remain_days g_restart 49710)
          (shift_logfile hlog_h_sample (localtime_fixed 0) (env_sample 1699970400 0)
            (hlog_set_remain_days g_restart 49710))) = ["app-2023-11-14.log".toList] ∧
     (file_logger hlog_h_sample (localtime_fixed 0) (env_sample 1699970400 0)
      (hlog_set_remain_days g_restart 49710) "x".toList 1).disk "app-2023-11-14.log".toList
      = some "x\n".toList) := by
  refine ⟨⟨?_, by decide, by decide⟩, ⟨rfl, ?_⟩,
    ⟨rfl, by decide, by decide, by decide, by decide, ?_, by decide, by decide⟩,
    ⟨by decide, by decide, ?_, by decide⟩⟩
  · rw [(shift_logfile_removed hlog_h_sample (localtime_fixed 0) (env_sample 1700000000 0)
      (hlog_set_remain_days g_restart 0)).1 (Or.inl rfl), mem_sweep_paths]
    have hd : sweep_interval (env_sample 1700000000 0) (hlog_set_remain_days g_restart 0)
        ≥ (hlog_set_remain_days g_restart 0).s_remain_days := by decide
    rw [if_pos hd]
    exact ⟨0, by decide, by decide, by decide⟩
  · rw [(shift_logfile_removed hlog_h_sample (localtime_fixed 0) (env_sample 1700000000 0)
      g_long).1 (Or.inl rfl), mem_sweep_paths]
    have hd : sweep_interval (env_sample 1700000000 0) g_long ≥ g_long.s_remain_days := by
      decide
    rw [if_pos hd]
    have hl : g_long.s_logfile.length = 255 := List.length_replicate 255 'a'
    refine ⟨1, by decide, by decide, ?_⟩
    rw [ts_logfile_long_base _ _ _ hl, ts_logfile_long_base _ _ _ hl]
  · rw [(shift_logfile_removed hlog_h_sample (localtime_zone london_2023)
      (env_sample 1698622200 0) g_restart_oct).1 (Or.inl rfl), mem_sweep_paths]
    have hd : sweep_interval (env_sample 1698622200 0) g_restart_oct
        ≥ g_restart_oct.s_remain_days := by decide
    rw [if_pos hd]
    exact ⟨1, by decide, by decide, by decide⟩
  · rw [(shift_logfile_removed hlog_h_sample (localtime_fixed 0) (env_sample 1699970400 0)
      (hlog_set_remain_days g_restart 49710)).1 (Or.inl rfl)]
    decide

/-- C11, amended. For any clock value and any prior state: when a call of
`shift_logfile` rotates, its sweep runs on the state in which the old stream
has been closed, so no stream is open while paths are removed, and the name
the call then opens is the name of today (for every `s_remain_days`). And
the name of today is not among the removed paths when

* `s_remain_days >= 1`;
* `s_remain_days` and `interval_days` are at most 24855, so that the `int`
  products `i * 86400` of the sweep are exact;
* dates are taken from the Gregorian calendar in a time zone whose UTC
  offset `i * 86400` seconds before now exceeds the offset at now by less
  than `i * 86400` minus the seconds passed since local midnight, for the
  days `i` of the sweep (so it is for a constant offset; for `i = 1` and the
  day on which summer time ends it excludes the last hour of that day);
* the name of today and the names of the swept days fit the buffer of 256
  bytes. -/
theorem sweep_spares_today (K : Consts) (localtime : Int → Tm) (env : Env) (g : State) :
    (rotates env g →
      shift_rotate localtime env g
        = sweep localtime env (sweep_interval env g) (c_fclose g) ∧
      (c_fclose g).s_logfp = none ∧
      (at_size_check localtime env g).s_cur_logfile
        = ts_logfile localtime g.s_logfile env.time 256) ∧
    (∀ gmtoff : Int → Int, localtime = localtime_zone gmtoff →
      1 ≤ g.s_remain_days →
      max (sweep_interval env g) g.s_remain_days ≤ 24855 →
      (∀ i : Int, g.s_remain_days ≤ i → i ≤ max (sweep_interval env g) g.s_remain_days →
        gmtoff (env.time - i * 86400) - gmtoff env.time
          < i * 86400 - (env.time + gmtoff env.time) % 86400) →
      (∀ i : Int, i = 0 ∨ g.s_remain_days ≤ i →
        i ≤ max (sweep_interval env g) g.s_remain_days →
        (ts_logfile_fmt g.s_logfile (localtime (env.time - i * 86400))).length < 256) →
      ts_logfile localtime g.s_logfile env.time 256
        ∉ removed_paths (new_events g (shift_logfile K localtime env g))) := by
  constructor
  · intro hrot
    refine ⟨shift_rotate_eq_sweep localtime env g hrot, c_fclose_s_logfp g, ?_⟩
    have hnone : (shift_rotate localtime env g).s_logfp = none :=
      shift_rotate_s_logfp localtime env g hrot
    have hcfg := (shift_rotate_sameConfig localtime env g).2.2.1
    unfold at_size_check shift_open
    simp only [hnone, if_true, hcfg]
    unfold c_fopen
    split <;> rfl
  · intro gmtoff hlt hR hmax hzone hfit
    subst hlt
    have hkey : ∀ i : Int, g.s_remain_days ≤ i →
        i ≤ max (sweep_interval env g) g.s_remain_days →
        ts_logfile (localtime_zone gmtoff) g.s_logfile env.time 256
          ≠ ts_logfile (localtime_zone gmtoff) g.s_logfile
              (env.time - int_mul i SECONDS_PER_DAY) 256 := by
      intro i h1 h2
      rw [int_mul_day i (by omega) (by omega)]
      unfold SECONDS_PER_DAY
      have hz := hzone i h1 h2
      have hf0 := hfit 0 (Or.inl rfl) (by omega)
      simp only [zero_mul, sub_zero] at hf0
      exact ts_logfile_zone_ne gmtoff g.s_logfile _ _ (by omega) hf0 (hfit i (Or.inr h1) h2)
    by_cases hrot : rotates env g
    · rw [(shift_logfile_removed K (localtime_zone gmtoff) env g).1 hrot, mem_sweep_paths]
      by_cases hd : sweep_interval env g ≥ g.s_remain_days
      · rw [if_pos hd]
        rintro ⟨i, h1, h2, h3⟩
        exact hkey i h1 (le_trans h2 (le_max_left _ _)) h3
      · rw [if_neg hd]
        intro h3
        exact hkey g.s_remain_days (le_refl _) (le_max_right _ _) h3
    · rw [(shift_logfile_removed K (localtime_zone gmtoff) env g).2 hrot]
      simp

/-- Witness for C11 as amended: London, one retention day, base "app", a
restart on 2023-11-14 with the file of that day on disk; the thirty days of
the sweep reach back across the end of summer time, and none of the removed
paths is "app-2023-11-14.log". -/
theorem sweep_spares_today_witness :
    g_restart.disk "app-2023-11-14.log".toList = some "earlier\n".toList ∧
    ts_logfile (localtime_zone london_2023) g_restart.s_logfile (env_sample 1700000000 0).time
      256 = "app-2023-11-14.log".toList ∧
    ts_logfile (localtime_zone london_2023) g_restart.s_logfile (env_sample 1700000000 0).time
      256 ∉ removed_paths (new_events g_restart
          (shift_logfile hlog_h_sample (localtime_zone london_2023) (env_sample 1700000000 0)
            g_restart)) :=
  have hm : max (sweep_interval (env_sample 1700000000 0) g_restart) g_restart.s_remain_days
      = 30 := by decide
  ⟨by decide, by decide,
   (sweep_spares_today hlog_h_sample (localtime_zone london_2023) (env_sample 1700000000 0)
    g_restart).2 london_2023 rfl (by decide) (by rw [hm]; decide)
    (by
      intro i h1 h2
      rw [hm] at h2
      have h3 : (1 : Int) ≤ i := h1
      interval_cases i <;> decide)
    (by
      intro i h1 h2
      rw [hm] at h2
      have h3 : (0 : Int) ≤ i := by
        rcases h1 with h | h
        · omega
        · have : (1 : Int) ≤ i := h
          omega
      interval_cases i <;> decide)⟩

/-! ## C2: a retention period beyond the range of the `int` product -/

end Hlog
